import Mathlib

/-!
Verification development for the SmartDataPipeline metric pipeline and
predictive-analytics core (backend/app).

The Python source is shallowly embedded: machine floats are modelled as
exact rationals (`Rat`); SQL tables become finite sets or lookup
functions; SQLAlchemy sessions become explicit state passing.  Square
roots (used only for standard deviations / RMSE values that no verified
property depends on numerically) are modelled by an explicit function
parameter, and statsmodels SARIMAX fits are modelled as an oracle value
of type `Except Unit _` (an `Except.error` models a raised exception).
-/

/- ===================== Definitions ===================== -/

/-- Key of a CleanEvent row for the unique constraint
`(source_id, ts, metric)` (app/models/clean_event.py); the timestamp is
modelled as UTC seconds. -/
abbrev CleanKey := Nat × Int × String

/-- Result of `_try_clean_row` (app/services/ingestion.py) on a valid row:
an aware-UTC timestamp (seconds), a metric name, and a numeric value.
The pandas timestamp/number coercions inside `_try_clean_row` are
external library calls; the cleaner is therefore treated as an abstract
deterministic function `Row → Option CleanRow` below. -/
structure CleanRow where
  ts : Int
  metric : String
  value : Rat
deriving DecidableEq

/-- Lookup a source id by name, first match wins (models
`db.execute(select(Source).where(Source.name == source_name))` in
`_get_or_create_source`, app/services/ingestion.py). -/
def lookupSource : List (String × Nat) → String → Option Nat
  | [], _ => none
  | (n, i) :: rest, name => if n = name then some i else lookupSource rest name

/-- Models `_get_or_create_source` (app/services/ingestion.py) and
`_ensure_source` (app/routers/ingest.py): resolve a source name, creating
a row with a fresh id when absent.  Returns (id, sources, next fresh id). -/
def ensureSource (sources : List (String × Nat)) (nextId : Nat) (name : String) :
    Nat × List (String × Nat) × Nat :=
  match lookupSource sources name with
  | some i => (i, sources, nextId)
  | none => (nextId, (name, nextId) :: sources, nextId + 1)

/-- Database state touched by `process_rows` (app/services/ingestion.py):
the `sources` table, the dedup key set of `clean_events`, and the
`raw_events` row count (raw rows are append-only and content-irrelevant
to the verified claims, so only the count is kept). -/
structure IngestDb where
  sources : List (String × Nat)
  nextSourceId : Nat
  cleanKeys : Finset CleanKey
  rawCount : Nat

/-- The statistics record returned by `process_rows`
(app/services/ingestion.py): `ingested_rows` counts valid rows
(CleanEvent upsert attempts), `skipped_rows` counts invalid rows, and
`duplicates` counts upsert conflicts ("do nothing" rows). -/
structure IngestStats where
  ingested_rows : Nat
  skipped_rows : Nat
  duplicates : Nat
deriving DecidableEq

/-- Intermediate loop state of the `for raw in rows_iter` loop of
`process_rows`. -/
structure IngestLoopState where
  stats : IngestStats
  cleanKeys : Finset CleanKey
  rawCount : Nat

/-- One iteration of the `process_rows` row loop
(app/services/ingestion.py, lines 229-270): append a RawEvent, run the
cleaner, and on success insert-or-ignore into CleanEvent keyed by
`(source_id, ts, metric)`.  The batched flushes
(`flush_clean`, lines 214-227) count `duplicates` as
`len(clean_buffer) - rowcount` of a multi-row
`INSERT .. ON CONFLICT DO NOTHING`; PostgreSQL processes the VALUES rows
in order and intra-statement conflicts are skipped, so the per-row fold
here computes the same totals as the batched flushes. -/
def processRow {Row : Type} (clean : Row → Option CleanRow) (srcId : Nat)
    (st : IngestLoopState) (r : Row) : IngestLoopState :=
  let st1 : IngestLoopState := { st with rawCount := st.rawCount + 1 }
  match clean r with
  | none =>
      { st1 with stats := { st1.stats with skipped_rows := st1.stats.skipped_rows + 1 } }
  | some c =>
      let k : CleanKey := (srcId, c.ts, c.metric)
      let stats1 := { st1.stats with ingested_rows := st1.stats.ingested_rows + 1 }
      if k ∈ st1.cleanKeys then
        { st1 with stats := { stats1 with duplicates := stats1.duplicates + 1 } }
      else
        { st1 with stats := stats1, cleanKeys := insert k st1.cleanKeys }

/-- Models `process_rows` (app/services/ingestion.py, lines 175-286):
resolve-or-create the source, then stream the rows through
`processRow`.  Returns the stats record and the updated database
state.  The surrounding transaction always commits here because the
embedded loop is total (the Python loop raises only on storage
failures, which are outside the verified claims). -/
def processRows {Row : Type} (clean : Row → Option CleanRow) (sourceName : String)
    (rows : List Row) (db : IngestDb) : IngestStats × IngestDb :=
  let r := ensureSource db.sources db.nextSourceId sourceName
  let fin := rows.foldl (processRow clean r.1) ⟨⟨0, 0, 0⟩, db.cleanKeys, db.rawCount⟩
  (fin.stats,
   { sources := r.2.1, nextSourceId := r.2.2, cleanKeys := fin.cleanKeys,
     rawCount := fin.rawCount })

/-- The z-score that the loop body of `_rolling_zscores_prior_window`
(app/services/anomaly.py, lines 99-113) assigns to index `i`, or `none`
when the loop leaves `z[i]` unset.  The prior window is
`values[i - window : i]` with `i ≥ window`.  The source filters the
window through `isfinite` and tests `pstdev(prior) == 0`; rationals are
always finite and `pstdev` is the square root of the population
variance, which is zero exactly when that variance is zero, so the
test is modelled as `sigma2 = 0`.  The square root itself is modelled
by the explicit parameter `sqrtQ` (no verified claim depends on the
numeric value of a nonzero standard deviation). -/
def zscore_at (sqrtQ : Rat → Rat) (values : List (Option Rat)) (window i : Nat) :
    Option Rat :=
  if i < window then none
  else
    let prior := ((values.drop (i - window)).take window).filterMap id
    if prior.length < window then none
    else
      let mu := prior.sum / (prior.length : Rat)
      let sigma2 := (prior.map (fun x => (x - mu) ^ 2)).sum / (prior.length : Rat)
      if sigma2 = 0 then none
      else
        match values[i]? with
        | some (some v) => some ((v - mu) / sqrtQ sigma2)
        | _ => none

/-- Models `_rolling_zscores_prior_window` (app/services/anomaly.py,
lines 90-114): a list of optional z-scores, index-aligned with the
input, computed from the previous `window` values only. -/
def rolling_zscores_prior_window (sqrtQ : Rat → Rat) (values : List (Option Rat))
    (window : Nat) : List (Option Rat) :=
  if window ≤ 1 then List.replicate values.length none
  else (List.range values.length).map (zscore_at sqrtQ values window)

/-- An anomaly record emitted by `detect_anomalies`
(app/services/anomaly.py): date, value and rolling z-score of a flagged
point. -/
structure AnomalyRec where
  metric_date : Int
  value : Rat
  z : Rat
deriving DecidableEq

/-- Models the selection loop of `detect_anomalies`
(app/services/anomaly.py, lines 117-157) on an already-fetched series of
`(metric_date, value)` points: compute rolling z-scores and keep points
with `|z| ≥ z_thresh` and a present value. -/
def detect_anomalies (sqrtQ : Rat → Rat) (points : List (Int × Option Rat))
    (window : Nat) (z_thresh : Rat) : List AnomalyRec :=
  if points = [] then []
  else
    let z := rolling_zscores_prior_window sqrtQ (points.map Prod.snd) window
    (List.range points.length).filterMap (fun i =>
      match z[i]?, points[i]? with
      | some (some zp), some (d, some v) =>
          if z_thresh ≤ |zp| then some ⟨d, v, zp⟩ else none
      | _, _ => none)

/-- The large finite sentinel of `anomaly_rolling_inline`
(app/routers/metrics.py, line 325): `Z_CLAMP = 1e9`. -/
def Z_CLAMP : Rat := 1000000000

/-- One output point of the inline rolling z-score endpoint
(app/routers/metrics.py). -/
structure InlinePoint where
  metric_date : Int
  value : Option Rat
  z : Option Rat
  is_outlier : Bool
deriving DecidableEq

/-- The non-null prior-window values `prev_vals` of
`anomaly_rolling_inline` (app/routers/metrics.py, lines 351-353) at
index `i`: the slice `series[max(0, i - window) : i]` (truncated
subtraction models the `max`) with `None` values dropped. -/
def inline_prev_vals (series : List (Int × Option Rat)) (window i : Nat) : List Rat :=
  (((series.take i).drop (i - window)).map Prod.snd).filterMap id

/-- The window mean of `anomaly_rolling_inline`
(app/routers/metrics.py, line 359). -/
def sample_mean (l : List Rat) : Rat := l.sum / (l.length : Rat)

/-- The sample variance of `anomaly_rolling_inline`
(app/routers/metrics.py, line 360): squared deviations over `len - 1`. -/
def sample_var (l : List Rat) : Rat :=
  (l.map (fun x => (x - sample_mean l) ^ 2)).sum / ((l.length : Rat) - 1)

/-- One iteration of the point loop of `anomaly_rolling_inline`
(app/routers/metrics.py, lines 334-377) at index `i`.  `_clamp_finite`
is the identity on rationals, which are always finite, and is omitted.
The sample standard deviation `std = sqrt(var) if var > 0 else 0.0` is
zero exactly when `var ≤ 0`, so the `std == 0` test is modelled as
`var ≤ 0`; the square root for the non-flat branch is the explicit
parameter `sqrtQ`. -/
def inline_point_at (sqrtQ : Rat → Rat) (series : List (Int × Option Rat))
    (window : Nat) (zt : Rat) (i : Nat) : InlinePoint :=
  match series[i]? with
  | none => ⟨0, none, none, false⟩
  | some (md, vo) =>
    match vo with
    | none => ⟨md, none, none, false⟩
    | some v =>
      let prev_vals := inline_prev_vals series window i
      if prev_vals.length < 2 then ⟨md, some v, none, false⟩
      else
        let m := sample_mean prev_vals
        let var := sample_var prev_vals
        if var ≤ 0 then
          ⟨md, some v, some (if v ≠ m then Z_CLAMP else 0), decide (v ≠ m)⟩
        else
          let z := (v - m) / sqrtQ var
          ⟨md, some v, some z, decide (zt ≤ |z|)⟩

/-- Models the `points` list built by `anomaly_rolling_inline`
(app/routers/metrics.py, lines 278-378); the `anomalies` list is the
subset of points with `is_outlier` set and is derived from this one. -/
def anomaly_rolling_inline (sqrtQ : Rat → Rat) (series : List (Int × Option Rat))
    (window : Nat) (zt : Rat) : List InlinePoint :=
  (List.range series.length).map (inline_point_at sqrtQ series window zt)

/-- A square-root stand-in used to evaluate the detectors on concrete
inputs whose verified behavior never reaches a nonzero standard
deviation. -/
def sqrtZero : Rat → Rat := fun _ => 0

/-- A stored forecast row as read back by `_read_forecast_df`
(app/routers/forecast.py, lines 58-79): target date (modelled as UTC
seconds) and the three stored numbers.  `None`, `NaN`, `±inf` and
unconvertible values — everything `_safe_float` sanitizes to `0.0` —
are modelled as `none`, since rationals cannot represent non-finite
floats. -/
structure RawForecastRow where
  forecast_date : Int
  yhat : Option Rat
  yhat_lo : Option Rat
  yhat_hi : Option Rat
deriving DecidableEq

/-- Models `_safe_float` (app/routers/forecast.py, lines 96-103, and
app/services/forecast_normalize.py, lines 17-24): keep a present finite
value, sanitize everything else to 0.0. -/
def safe_float (v : Option Rat) : Rat := v.getD 0

/-- Models `_to_utc_midnight_z` (app/routers/forecast.py, lines 82-93,
and app/services/forecast_normalize.py, lines 6-15): floor a UTC
instant to its UTC midnight.  The `YYYY-MM-DDT00:00:00Z` string
formatting is serialization only; lexicographic order on those strings
coincides with numeric order on the instants, so dates stay modelled as
integers. -/
def to_utc_midnight_z (t : Int) : Int := 86400 * t.fdiv 86400

/-- One point of the public forecast contract
(`metric_date, metric, yhat, yhat_lower, yhat_upper`).  The legacy
`date` field the router adds is the date part of `metric_date` and is
omitted. -/
structure NormRow where
  metric_date : Int
  metric : String
  yhat : Rat
  yhat_lower : Rat
  yhat_upper : Rat
deriving DecidableEq

/-- The per-row body shared by `normalize_forecast_rows`
(app/services/forecast_normalize.py, lines 31-43) and `_normalize_rows`
(app/routers/forecast.py, lines 108-129): sanitize the three numbers
and reorder the two bounds so lower ≤ upper.  `yhat` itself is not
clamped into the band. -/
def norm_one_row (metric : String) (r : RawForecastRow) : NormRow :=
  let y := safe_float r.yhat
  let lo := safe_float r.yhat_lo
  let hi := safe_float r.yhat_hi
  let lu := if lo ≤ hi then (lo, hi) else (hi, lo)
  ⟨to_utc_midnight_z r.forecast_date, metric, y, lu.1, lu.2⟩

/-- Python's stable `out.sort(key=lambda r: r["metric_date"])`;
insertion sort on `≤` of the dates is stable, matching Timsort's
observable behavior on this key. -/
def sort_by_date (l : List NormRow) : List NormRow :=
  List.insertionSort (fun a b => a.metric_date ≤ b.metric_date) l

/-- The zero-valued forward-padding loop shared by both normalizers
(app/routers/forecast.py, lines 134-146, and
app/services/forecast_normalize.py, lines 47-54): append `k` rows, one
day after `lastDt` each, with all numbers 0.0. -/
def pad_forward (metric : String) (lastDt : Int) (k : Nat) : List NormRow :=
  (List.range k).map (fun (j : Nat) => ⟨lastDt + 86400 * ((j : Int) + 1), metric, 0, 0, 0⟩)

/-- Models `_normalize_rows` (app/routers/forecast.py, lines 106-147),
the normalization step on the public `GET /api/forecast/daily` path:
sanitize each row, sort by date, trim to 7, then pad forward to 7 when
the (nonempty) result is short. -/
def normalize_rows (raw_rows : List RawForecastRow) (metric : String) : List NormRow :=
  let out0 := raw_rows.map (norm_one_row metric)
  let out1 := (sort_by_date out0).take 7
  if out1 ≠ [] ∧ out1.length < 7 then
    out1 ++ pad_forward metric (((out1.getLast?).getD ⟨0, metric, 0, 0, 0⟩).metric_date)
      (7 - out1.length)
  else out1

/-- Models `normalize_forecast_rows`
(app/services/forecast_normalize.py, lines 26-58): same ingredients,
but trimming happens before sorting and the sort runs last. -/
def normalize_forecast_rows (raw_rows : List RawForecastRow) (metric : String) :
    List NormRow :=
  let out0 := (raw_rows.map (norm_one_row metric)).take 7
  let out1 :=
    if out0 ≠ [] ∧ out0.length < 7 then
      out0 ++ pad_forward metric (((out0.getLast?).getD ⟨0, metric, 0, 0, 0⟩).metric_date)
        (7 - out0.length)
    else out0
  sort_by_date out1

/-- A clean_events row as read by the rollup aggregator
(app/models/clean_event.py): timestamp (UTC seconds), source id, metric
and numeric value. -/
structure CleanEv where
  ts : Int
  source_id : Nat
  metric : String
  value : Rat
deriving DecidableEq

/-- UTC calendar day of a UTC-seconds timestamp, as a day number:
models `ts.astimezone(timezone.utc).date()` (app/services/kpi.py, line
111) via floor division. -/
def utc_day (ts : Int) : Int := ts.fdiv 86400

/-- Key of a metric_daily row: `(metric_date, source_id, metric)`
(app/models/metric_daily.py). -/
abbrev AggKey := Int × Nat × String

/-- One step of the per-key running-sums dictionary: models the
`defaultdict` updates of `run_daily_kpis` (app/services/kpi.py, lines
103-117) and the `grouped.setdefault` updates of `_aggregate_and_upsert`
(app/routers/ingest.py, lines 56-62).  An existing key is updated in
place, a new key is appended at the end, preserving Python dict
insertion order. -/
def upd_agg {κ : Type} [DecidableEq κ] :
    List (κ × (Rat × Nat)) → κ → Rat → List (κ × (Rat × Nat))
  | [], k, v => [(k, (v, 1))]
  | (k', sc) :: rest, k, v =>
      if k' = k then (k', (sc.1 + v, sc.2 + 1)) :: rest
      else (k', sc) :: upd_agg rest k v

/-- Association-list lookup (first match). -/
def alookup {κ : Type} [DecidableEq κ] : List (κ × (Rat × Nat)) → κ → Option (Rat × Nat)
  | [], _ => none
  | (k', sc) :: rest, k => if k' = k then some sc else alookup rest k

/-- A metric_daily row.  `value_avg` is nullable: the streaming
increment path sets it to NULL while the rollup recompute writes it.
`value_distinct` is written only when a distinct count is requested; no
verified claim touches it, so it is omitted. -/
structure MdRow where
  value_sum : Rat
  value_avg : Option Rat
  value_count : Nat
deriving DecidableEq

/-- The metric_daily table as a lookup from its key. -/
def MdStore : Type := AggKey → Option MdRow

/-- The recompute window `[start_dt, end_dt)` of `run_daily_kpis`
(app/services/kpi.py, lines 24-36): `none` models the
`if not mints or not maxts` early return on an empty event table;
missing bounds default to the UTC days of the global min/max CleanEvent
timestamp, and a reversed range is swapped. -/
def kpi_range (db : List CleanEv) (start? stop? : Option Int) : Option (Int × Int) :=
  match db with
  | [] => none
  | e :: rest =>
      let mints := (rest.map (·.ts)).foldl min e.ts
      let maxts := (rest.map (·.ts)).foldl max e.ts
      let start := start?.getD (utc_day mints)
      let stop := stop?.getD (utc_day maxts)
      let se := if start > stop then (stop, start) else (start, stop)
      some (86400 * se.1, 86400 * (se.2 + 1))

/-- The row filter of `run_daily_kpis` (app/services/kpi.py, lines
88-97).  `metric_name` and `source_id` are optional filters; the
source's Python truthiness tests (`if metric_name:`, `if source_id:`)
are modelled by `Option` (metric names are nonempty and ids positive in
the stored data). -/
def kpi_keep (sdt edt : Int) (metric_name : Option String) (source_id : Option Nat)
    (e : CleanEv) : Bool :=
  decide (sdt ≤ e.ts) && decide (e.ts < edt)
    && (match metric_name with | some m => decide (e.metric = m) | none => true)
    && (match source_id with | some sid => decide (e.source_id = sid) | none => true)

/-- The CleanEvent rows `run_daily_kpis` aggregates: the table filtered
to the recompute window and the optional metric/source filters. -/
def kpi_filtered (db : List CleanEv) (start? stop? : Option Int)
    (metric_name : Option String) (source_id : Option Nat) : List CleanEv :=
  match kpi_range db start? stop? with
  | none => []
  | some se => db.filter (kpi_keep se.1 se.2 metric_name source_id)

/-- The grouping pass of `run_daily_kpis` (app/services/kpi.py, lines
102-117): running (sum, count) per `(utc day, source_id, metric)` in
insertion order.  `float(value or 0)` equals the value itself for
rationals (0 stays 0). -/
def kpi_group (events : List CleanEv) : List (AggKey × (Rat × Nat)) :=
  events.foldl (fun m e => upd_agg m (utc_day e.ts, e.source_id, e.metric) e.value) []

/-- One aggregate row produced by `run_daily_kpis`
(app/services/kpi.py, lines 119-132). -/
structure KpiOut where
  metric_date : Int
  source_id : Nat
  metric : String
  value_sum : Rat
  value_avg : Rat
  value_count : Nat
deriving DecidableEq

/-- The `aggregates` list of `run_daily_kpis` (app/services/kpi.py,
lines 119-132): `value_avg = (total / cnt) if cnt else 0.0`. -/
def kpi_aggregates (events : List CleanEv) : List KpiOut :=
  (kpi_group events).map (fun kv =>
    ⟨kv.1.1, kv.1.2.1, kv.1.2.2, kv.2.1,
      if kv.2.2 ≠ 0 then kv.2.1 / (kv.2.2 : Rat) else 0, kv.2.2⟩)

/-- The key of an aggregate row. -/
def kpi_out_key (r : KpiOut) : AggKey := (r.metric_date, r.source_id, r.metric)

/-- The replace-on-conflict upsert of `run_daily_kpis`
(app/services/kpi.py, lines 180-229): each aggregate row replaces any
stored metric_daily row with its key. -/
def md_upsert_replace (st : MdStore) (rows : List KpiOut) : MdStore :=
  rows.foldl (fun st r => fun k =>
    if k = kpi_out_key r then some ⟨r.value_sum, some r.value_avg, r.value_count⟩
    else st k) st

/-- Models `run_daily_kpis` (app/services/kpi.py, lines 12-230), generic
(non-PostgreSQL) branch; the PostgreSQL branch delegates the identical
grouping (UTC-day, source, metric with SUM/AVG/COUNT) and a replace
upsert to SQL.  Returns (upserted count, aggregates preview, new
store). -/
def run_daily_kpis (db : List CleanEv) (start? stop? : Option Int)
    (metric_name : Option String) (source_id : Option Nat) (st : MdStore) :
    Nat × List KpiOut × MdStore :=
  match kpi_range db start? stop? with
  | none => (0, [], st)
  | some _ =>
      match kpi_filtered db start? stop? metric_name source_id with
      | [] => (0, [], st)
      | e :: rest =>
          let aggs := kpi_aggregates (e :: rest)
          (aggs.length, aggs, md_upsert_replace st aggs)

/-- The CleanEvent rows of the recompute that fall on aggregate key `k`:
the claim's "rows v1..vn" for that (source, metric, day). -/
def kpi_matching (db : List CleanEv) (start? stop? : Option Int)
    (metric_name : Option String) (source_id : Option Nat) (k : AggKey) : List CleanEv :=
  (kpi_filtered db start? stop? metric_name source_id).filter
    (fun e => decide ((utc_day e.ts, e.source_id, e.metric) = k))

/-- Two CleanEvent rows on the same UTC day (the spec's worked example:
values 4 and 5 for metric events_total). -/
def ex_db : List CleanEv := [⟨0, 1, "events_total", 4⟩, ⟨3600, 1, "events_total", 5⟩]

/-- An event accepted by the streaming ingest endpoint (`IngestEvent`,
app/routers/ingest.py): the instant as UTC seconds, the UTC offset its
datetime carries, the metric and the value.  The offset matters because
`_aggregate_and_upsert` groups by `e.timestamp.date()` — the datetime's
own calendar day — while `_insert_clean_events_strict` converts the
instant to UTC. -/
structure StreamEvent where
  tsUtc : Int
  tzOffset : Int
  metric : String
  value : Rat
deriving DecidableEq

/-- The calendar day `e.timestamp.date()` used for grouping
(app/routers/ingest.py, line 58). -/
def local_day (e : StreamEvent) : Int := (e.tsUtc + e.tzOffset).fdiv 86400

/-- Database state touched by the streaming ingest route. -/
structure StreamDb where
  sources : List (String × Nat)
  nextSourceId : Nat
  cleanKeys : Finset CleanKey
  metricDaily : MdStore

/-- Models `_insert_clean_events_strict` (app/routers/ingest.py, lines
120-153): per-event `INSERT .. ON CONFLICT DO NOTHING RETURNING id`,
counting the rows actually inserted.  (The `to_regclass` guard that
no-ops when the table is missing in tests is not modelled: the table
exists.) -/
def insert_clean_events_strict (src_id : Nat) (events : List StreamEvent)
    (keys : Finset CleanKey) : Nat × Finset CleanKey :=
  events.foldl (fun acc e =>
    if ((src_id, e.tsUtc, e.metric) : CleanKey) ∈ acc.2 then acc
    else (acc.1 + 1, insert ((src_id, e.tsUtc, e.metric) : CleanKey) acc.2)) (0, keys)

/-- The grouping loop of `_aggregate_and_upsert`
(app/routers/ingest.py, lines 56-62): per (day, metric) running sums and
counts in insertion order. -/
def stream_grouped (events : List StreamEvent) : List ((Int × String) × (Rat × Nat)) :=
  events.foldl (fun m e => upd_agg m (local_day e, e.metric) e.value) []

/-- The increment upsert of `_aggregate_and_upsert`
(app/routers/ingest.py, lines 64-90): each batch group ADDS its sum and
count to the stored metric_daily row (`value_sum = COALESCE(...) +
EXCLUDED.value_sum`, likewise for value_count) and NULLs value_avg —
with no regard to how many of the batch's events were duplicates. -/
def md_upsert_add (src_id : Nat) (st : MdStore)
    (grouped : List ((Int × String) × (Rat × Nat))) : MdStore :=
  grouped.foldl (fun st g => fun k =>
    if k = (g.1.1, src_id, g.1.2) then
      match st (g.1.1, src_id, g.1.2) with
      | some r => some ⟨r.value_sum + g.2.1, none, r.value_count + g.2.2⟩
      | none => some ⟨g.2.1, none, g.2.2⟩
    else st k) st

/-- The response counters of the streaming ingest route. -/
structure StreamStats where
  inserted : Nat
  duplicates : Nat
deriving DecidableEq

/-- Models the accepted-batch tail of `ingest_json_or_csv`
(app/routers/ingest.py, lines 392-397): resolve-or-create the source,
strict-insert clean events (counting `duplicates = max(0, len(events) -
inserted)`), then increment-upsert the daily aggregates from the full
batch. -/
def ingest_batch (name : String) (events : List StreamEvent) (db : StreamDb) :
    StreamStats × StreamDb :=
  let r := ensureSource db.sources db.nextSourceId name
  let ins := insert_clean_events_strict r.1 events db.cleanKeys
  let md := md_upsert_add r.1 db.metricDaily (stream_grouped events)
  (⟨ins.1, events.length - ins.1⟩, ⟨r.2.1, r.2.2, ins.2, md⟩)

/-- The source id a batch for `name` resolves to against state `db`. -/
def stream_sid (db : StreamDb) (name : String) : Nat :=
  (ensureSource db.sources db.nextSourceId name).1

/-- A concrete two-event batch (same day, same metric, values 4 and 5). -/
def ex_batch : List StreamEvent := [⟨0, 0, "m", 4⟩, ⟨3600, 0, "m", 5⟩]

/-- An empty streaming-ingest database. -/
def ex_stream_db : StreamDb := ⟨[], 0, ∅, fun _ => none⟩

/-- The SARIMAX fit oracle for one run: `Except.error` models an
exception raised by `model.fit(...)`; `Except.ok` carries the
(yhat, lower, upper) triples of `get_forecast`, already put through the
source's `fillna(ffill).fillna(0)` NaN guard (rationals cannot carry
NaN, so the filled values are what the oracle yields). -/
abbrev FitOracle := Except Unit (List (Rat × Rat × Rat))

/-- One forecast_results row for a fixed (source, metric)
(app/models/forecast_results.py): target date (day number) and the three
numbers. -/
structure FRow where
  target_date : Int
  yhat : Rat
  yhat_lower : Rat
  yhat_upper : Rat
deriving DecidableEq

/-- The forecast_results slice for one (source_id, metric), keyed by
`target_date` — `write_forecast` upserts by
(source_id, metric, target_date) with source and metric fixed during a
run. -/
def FcStore : Type := Int → Option FRow

/-- `float(series.sum())` over the fetched daily series. -/
def series_sum (s : List (Int × Rat)) : Rat := (s.map Prod.snd).sum

/-- `series.index.max()`: the maximum date of the series (0 for an empty
series, where the source never evaluates it). -/
def series_max_date (s : List (Int × Rat)) : Int :=
  match s.map Prod.fst with
  | [] => 0
  | d :: ds => ds.foldl max d

/-- `series.index[-1]` / `series.iloc[-1]`: date and value of the last
entry. -/
def series_last_date (s : List (Int × Rat)) : Int := ((s.getLast?).getD (0, 0)).1

/-- `float(series.iloc[-1])`. -/
def series_last_value (s : List (Int × Rat)) : Rat := ((s.getLast?).getD (0, 0)).2

/-- Models `train_sarimax_and_forecast` (app/services/forecast.py, lines
38-91).  `sarimaxAvail` is False when the statsmodels wheel failed to
import.  `pd.date_range(anchor, periods=h, freq="D")` is
`[anchor, anchor+1, ...]`.  Note there is NO try/except around the fit:
a fit error propagates out as `Except.error`. -/
def train_sarimax_and_forecast (sarimaxAvail : Bool) (fit : FitOracle) (today : Int)
    (s : List (Int × Rat)) (horizon : Nat) : Except Unit (List FRow) :=
  if s = [] ∨ series_sum s = 0 then
    Except.ok ((List.range horizon).map (fun (i : Nat) =>
      ⟨((if s = [] then today else series_max_date s) + 1) + (i : Int), 0, 0, 0⟩))
  else
    if sarimaxAvail = false then
      Except.ok ((List.range horizon).map (fun (i : Nat) =>
        ⟨series_max_date s + 1 + (i : Int), series_last_value s, 0, 0⟩))
    else
      match fit with
      | Except.error e => Except.error e
      | Except.ok vals =>
          Except.ok (List.zipWith (fun (d : Int) v => ⟨d, v.1, v.2.1, v.2.2⟩)
            ((List.range horizon).map (fun (i : Nat) => series_max_date s + 1 + (i : Int)))
            vals)

/-- Models `write_forecast` (app/services/forecast.py, lines 94-106):
upsert each row by its target date (reruns overwrite). -/
def write_forecast (st : FcStore) (rows : List FRow) : FcStore :=
  rows.foldl (fun st r => fun d => if d = r.target_date then some r else st d) st

/-- Models `run_forecast` (app/services/forecast.py, lines 108-127):
with fewer than MIN_POINTS = 14 observed days, hold the last value
constant from the day after the last observed date (or from `today` on
an empty series); otherwise use the SARIMAX path.  Returns the rows
written and the updated store, or the propagated fit error. -/
def run_forecast (sarimaxAvail : Bool) (fit : FitOracle) (today : Int)
    (s : List (Int × Rat)) (horizon : Nat) (st : FcStore) :
    Except Unit (List FRow × FcStore) :=
  if s.length < 14 then
    Except.ok ((List.range horizon).map (fun (i : Nat) =>
        (⟨(if s = [] then today else series_last_date s + 1) + (i : Int),
          if s = [] then 0 else series_last_value s,
          if s = [] then 0 else series_last_value s,
          if s = [] then 0 else series_last_value s⟩ : FRow)),
      write_forecast st ((List.range horizon).map (fun (i : Nat) =>
        (⟨(if s = [] then today else series_last_date s + 1) + (i : Int),
          if s = [] then 0 else series_last_value s,
          if s = [] then 0 else series_last_value s,
          if s = [] then 0 else series_last_value s⟩ : FRow))))
  else
    match train_sarimax_and_forecast sarimaxAvail fit today s horizon with
    | Except.error e => Except.error e
    | Except.ok df => Except.ok (df, write_forecast st df)

/-- Models `_forecast_vector` (app/services/forecast.py, lines 156-175):
the backtest forecast step.  Unlike `train_sarimax_and_forecast`, the
fit here IS wrapped in try/except: an error falls back to the naive
last-value vector. -/
def forecast_vector (sarimaxAvail : Bool) (fit : Except Unit (List Rat))
    (train : List Rat) (horizon : Nat) : List Rat :=
  if sarimaxAvail = false ∨ train.length < 14 then
    List.replicate horizon ((train.getLast?).getD 0)
  else
    match fit with
    | Except.ok v => v
    | Except.error _ => List.replicate horizon ((train.getLast?).getD 0)

/-- A 14-day all-ones series (enough history for the SARIMAX path). -/
def ex14 : List (Int × Rat) := (List.range 14).map (fun (i : Nat) => ((i : Int), 1))

/-- The seven rows `run_forecast` writes for the one-point series
[(0, 5)] with horizon 7. -/
def fc_ex_df : List FRow :=
  [⟨1, 5, 5, 5⟩, ⟨2, 5, 5, 5⟩, ⟨3, 5, 5, 5⟩, ⟨4, 5, 5, 5⟩,
   ⟨5, 5, 5, 5⟩, ⟨6, 5, 5, 5⟩, ⟨7, 5, 5, 5⟩]

/-- The 1e-9 guard denominator of `run_reliability`'s MAPE/sMAPE. -/
def EPS9 : Rat := 1 / 1000000000

/-- One per-fold stats record of `run_reliability`
(app/services/forecast_reliability.py, lines 96-105). -/
structure FoldStat where
  fold_index : Nat
  mae : Rat
  rmse : Rat
  mape : Rat
  smape : Rat
  bias : Rat
deriving DecidableEq

/-- The fold loop of `run_reliability`
(app/services/forecast_reliability.py, lines 75-105): for fold k the
training slice ends at `n - (folds - k) * horizon` (clamped at 0), the
test slice is the next `horizon` points, empty slices are skipped, the
forecast is the last training value held constant, and MAE/RMSE/MAPE/
sMAPE/bias are computed against it.  `(...)**0.5` for the RMSE is the
explicit square-root parameter `sqrtQ` applied to the mean square
error (no verified claim depends on its value). -/
def reliability_fold_stats (sqrtQ : Rat → Rat) (y : List Rat) (foldsN horizonN : Nat) :
    List FoldStat :=
  (List.range foldsN).filterMap (fun (k : Nat) =>
    let train_end : Int := (y.length : Int) - ((foldsN : Int) - (k : Int)) * (horizonN : Int)
    let tcut : Nat := (max train_end 0).toNat
    let train := y.take tcut
    let test := (y.drop tcut).take horizonN
    if train = [] ∨ test = [] then none
    else
      let last := (train.getLast?).getD 0
      let mae := (test.map (fun a => |a - last|)).sum / (test.length : Rat)
      let mse := (test.map (fun a => (a - last) ^ 2)).sum / (test.length : Rat)
      let mape := (test.map (fun a => |a - last| / (|a| + EPS9))).sum * 100
        / (test.length : Rat)
      let smape := (test.map (fun a =>
        2 * |a - last| / (|a| + |last| + EPS9))).sum * 100 / (test.length : Rat)
      let bias := (test.map (fun a => last - a)).sum / (test.length : Rat)
      some ⟨k, mae, sqrtQ mse, mape, smape, bias⟩)

/-- The persisted ForecastReliability snapshot
(app/models/forecast_reliability.py): integer `score` plus the float
aggregates, with the fold children. -/
structure ReliabilityRec where
  score : Int
  mape : Rat
  rmse : Rat
  smape : Rat
  folds : List FoldStat
deriving DecidableEq

/-- `_avg` of `run_reliability` (forecast_reliability.py, lines
114-116): the plain mean, 0 on an empty list.  The `_num_ok`
finiteness filter keeps every rational, so it is omitted. -/
def favg (stats : List FoldStat) (f : FoldStat → Rat) : Rat :=
  if stats = [] then 0 else (stats.map f).sum / (stats.length : Rat)

/-- Python `max(...)` over a nonempty list (0 for empty, unreached). -/
def list_max (l : List Rat) : Rat :=
  match l with
  | [] => 0
  | x :: xs => xs.foldl max x

/-- Python `min(...)` over a nonempty list (0 for empty, unreached). -/
def list_min (l : List Rat) : Rat :=
  match l with
  | [] => 0
  | x :: xs => xs.foldl min x

/-- Models `run_reliability` (app/services/forecast_reliability.py,
lines 57-186) on an already-loaded chronological series `y`.  Inputs
are clamped as in the source: `horizon = max(1, int(horizon))`,
`folds = max(0, min(int(folds), n - (horizon + 1)))`.  The composite
score is `int(max(0, min(100, 100 - mape_agg/2 - instability)))`; the
clamped value is nonnegative, so Python's truncating `int()` is the
floor.  The `_safe_num` coercions are the identity for rationals
(always finite), and the final `max(0, min(100, score))` re-clamp is
kept.  `reliability_assemble` is the aggregation/score tail of the
function (lines 107-168) factored over the computed fold stats. -/
def reliability_assemble (fs : List FoldStat) : ReliabilityRec :=
  if fs = [] then ⟨0, 0, 0, 0, fs⟩
  else
    ⟨max 0 (min 100
        (⌊max 0 (min 100 (100 - favg fs (fun d => d.mape) / 2 -
          (if 2 ≤ (fs.map (fun d => d.mape)).length
           then (list_max (fs.map (fun d => d.mape))
             - list_min (fs.map (fun d => d.mape))) / 10
           else 0)))⌋ : Int)),
      favg fs (fun d => d.mape), favg fs (fun d => d.rmse), favg fs (fun d => d.smape), fs⟩

def run_reliability (sqrtQ : Rat → Rat) (y : List Rat) (folds horizon : Int) :
    ReliabilityRec :=
  let horizonN : Nat := (max 1 horizon).toNat
  let maxFolds : Nat := y.length - (horizonN + 1)
  let foldsN : Nat := (max 0 (min folds (maxFolds : Int))).toNat
  reliability_assemble (reliability_fold_stats sqrtQ y foldsN horizonN)

/-- Modelled from the spec words for the refinement statement of the
composite score: `clamp(0, 100, 100 - mean_mape/2 - instability)` with
`instability = (max - min)/10` of the per-fold MAPE values when at
least two folds exist, else 0 — as a rational, with no integer
truncation. -/
def spec_composite_score (mapes : List Rat) : Rat :=
  let mean_mape := if mapes = [] then 0 else mapes.sum / (mapes.length : Rat)
  let instability : Rat :=
    if 2 ≤ mapes.length then (list_max mapes - list_min mapes) / 10 else 0
  max 0 (min 100 (100 - mean_mape / 2 - instability))

/- ===================== Theorems ===================== -/

theorem ensureSource_idem (sources : List (String × Nat)) (nextId : Nat) (name : String) :
    ensureSource (ensureSource sources nextId name).2.1
      (ensureSource sources nextId name).2.2 name = ensureSource sources nextId name := by
  unfold ensureSource
  cases h : lookupSource sources name with
  | some i => simp [h]
  | none => simp [lookupSource, h]

theorem processRow_none {Row : Type} (clean : Row → Option CleanRow) (srcId : Nat)
    (st : IngestLoopState) (r : Row) (hcr : clean r = none) :
    (processRow clean srcId st r).cleanKeys = st.cleanKeys ∧
    (processRow clean srcId st r).stats.duplicates = st.stats.duplicates := by
  simp [processRow, hcr]

theorem processRow_dup {Row : Type} (clean : Row → Option CleanRow) (srcId : Nat)
    (st : IngestLoopState) (r : Row) (c : CleanRow) (hcr : clean r = some c)
    (hmem : ((srcId, c.ts, c.metric) : CleanKey) ∈ st.cleanKeys) :
    (processRow clean srcId st r).cleanKeys = st.cleanKeys ∧
    (processRow clean srcId st r).stats.duplicates = st.stats.duplicates + 1 := by
  simp [processRow, hcr, hmem]

theorem processRow_new {Row : Type} (clean : Row → Option CleanRow) (srcId : Nat)
    (st : IngestLoopState) (r : Row) (c : CleanRow) (hcr : clean r = some c)
    (hmem : ((srcId, c.ts, c.metric) : CleanKey) ∉ st.cleanKeys) :
    (processRow clean srcId st r).cleanKeys = insert (srcId, c.ts, c.metric) st.cleanKeys := by
  simp [processRow, hcr, hmem]

theorem processRow_cleanKeys_mono {Row : Type} (clean : Row → Option CleanRow)
    (srcId : Nat) (st : IngestLoopState) (r : Row) :
    st.cleanKeys ⊆ (processRow clean srcId st r).cleanKeys := by
  unfold processRow
  cases clean r with
  | none => exact fun k hk => hk
  | some c =>
      by_cases hmem : ((srcId, c.ts, c.metric) : CleanKey) ∈ st.cleanKeys
      · simp [hmem]
      · simp only [hmem, if_false]
        exact fun k hk => Finset.mem_insert_of_mem hk

theorem foldl_processRow_cleanKeys_mono {Row : Type} (clean : Row → Option CleanRow)
    (srcId : Nat) (rows : List Row) (st : IngestLoopState) :
    st.cleanKeys ⊆ (rows.foldl (processRow clean srcId) st).cleanKeys := by
  induction rows generalizing st with
  | nil => exact fun k hk => hk
  | cons r rest ih =>
      exact fun k hk =>
        ih (processRow clean srcId st r) (processRow_cleanKeys_mono clean srcId st r hk)

theorem foldl_processRow_mem_valid {Row : Type} (clean : Row → Option CleanRow)
    (srcId : Nat) (rows : List Row) (st : IngestLoopState) :
    ∀ c ∈ rows.filterMap clean,
      ((srcId, c.ts, c.metric) : CleanKey) ∈ (rows.foldl (processRow clean srcId) st).cleanKeys := by
  induction rows generalizing st with
  | nil => intro c hc; simp at hc
  | cons r rest ih =>
      intro c hc
      rw [List.foldl_cons]
      rw [List.filterMap_cons] at hc
      cases hcr : clean r with
      | none =>
          rw [hcr] at hc
          exact ih (processRow clean srcId st r) c hc
      | some c0 =>
          rw [hcr] at hc
          rcases List.mem_cons.mp hc with heq | hmem
          · subst heq
            apply foldl_processRow_cleanKeys_mono
            by_cases hmem2 : ((srcId, c.ts, c.metric) : CleanKey) ∈ st.cleanKeys
            · exact processRow_cleanKeys_mono clean srcId st r hmem2
            · rw [processRow_new clean srcId st r c hcr hmem2]
              exact Finset.mem_insert_self _ _
          · exact ih (processRow clean srcId st r) c hmem

theorem foldl_processRow_saturated {Row : Type} (clean : Row → Option CleanRow)
    (srcId : Nat) (rows : List Row) (st : IngestLoopState)
    (hsat : ∀ c ∈ rows.filterMap clean, ((srcId, c.ts, c.metric) : CleanKey) ∈ st.cleanKeys) :
    (rows.foldl (processRow clean srcId) st).cleanKeys = st.cleanKeys ∧
    (rows.foldl (processRow clean srcId) st).stats.duplicates
      = st.stats.duplicates + (rows.filterMap clean).length := by
  induction rows generalizing st with
  | nil => simp
  | cons r rest ih =>
      rw [List.foldl_cons]
      cases hcr : clean r with
      | none =>
          have hstep := processRow_none clean srcId st r hcr
          have hsat' : ∀ c ∈ rest.filterMap clean,
              ((srcId, c.ts, c.metric) : CleanKey) ∈ (processRow clean srcId st r).cleanKeys := by
            intro c hc
            rw [hstep.1]
            exact hsat c (by rw [List.filterMap_cons, hcr]; exact hc)
          have hih := ih (processRow clean srcId st r) hsat'
          refine ⟨?_, ?_⟩
          · rw [hih.1, hstep.1]
          · rw [hih.2, hstep.2, List.filterMap_cons, hcr]
      | some c0 =>
          have hmem : ((srcId, c0.ts, c0.metric) : CleanKey) ∈ st.cleanKeys := by
            apply hsat
            rw [List.filterMap_cons, hcr]
            exact List.mem_cons_self _ _
          have hstep := processRow_dup clean srcId st r c0 hcr hmem
          have hsat' : ∀ c ∈ rest.filterMap clean,
              ((srcId, c.ts, c.metric) : CleanKey) ∈ (processRow clean srcId st r).cleanKeys := by
            intro c hc
            rw [hstep.1]
            exact hsat c (by rw [List.filterMap_cons, hcr]; exact List.mem_cons_of_mem _ hc)
          have hih := ih (processRow clean srcId st r) hsat'
          refine ⟨?_, ?_⟩
          · rw [hih.1, hstep.1]
          · rw [hih.2, hstep.2, List.filterMap_cons, hcr]
            simp
            omega

/-- C1: ingesting the same row set twice through `process_rows` yields, on
the second call, `duplicates` equal to the number of valid rows, and the
CleanEvent store (hence its row count) is unchanged; re-inserting an
existing `(source_id, ts, metric)` key is a counted no-op and the
function is total (never an error). -/
theorem ingest_idempotent {Row : Type} (clean : Row → Option CleanRow)
    (sourceName : String) (rows : List Row) (db0 : IngestDb) :
    (processRows clean sourceName rows (processRows clean sourceName rows db0).2).1.duplicates
        = (rows.filterMap clean).length ∧
    (processRows clean sourceName rows (processRows clean sourceName rows db0).2).2.cleanKeys
        = (processRows clean sourceName rows db0).2.cleanKeys := by
  have hsrc := ensureSource_idem db0.sources db0.nextSourceId sourceName
  set r1 := ensureSource db0.sources db0.nextSourceId sourceName with hr1
  have hdb1 : (processRows clean sourceName rows db0).2.sources = r1.2.1 ∧
      (processRows clean sourceName rows db0).2.nextSourceId = r1.2.2 := by
    constructor <;> rfl
  -- second call resolves the same source id and starts from the first call's keys
  have hfold1 := foldl_processRow_mem_valid clean r1.1 rows
      ⟨⟨0, 0, 0⟩, db0.cleanKeys, db0.rawCount⟩
  have hkeys1 : (processRows clean sourceName rows db0).2.cleanKeys
      = (rows.foldl (processRow clean r1.1) ⟨⟨0, 0, 0⟩, db0.cleanKeys, db0.rawCount⟩).cleanKeys := rfl
  have hr2 : ensureSource (processRows clean sourceName rows db0).2.sources
      (processRows clean sourceName rows db0).2.nextSourceId sourceName = r1 := by
    rw [hdb1.1, hdb1.2]
    exact hsrc
  have hsat : ∀ c ∈ rows.filterMap clean,
      ((r1.1, c.ts, c.metric) : CleanKey) ∈ (processRows clean sourceName rows db0).2.cleanKeys := by
    intro c hc
    rw [hkeys1]
    exact hfold1 c hc
  have hmain := foldl_processRow_saturated clean r1.1 rows
      ⟨⟨0, 0, 0⟩, (processRows clean sourceName rows db0).2.cleanKeys,
        (processRows clean sourceName rows db0).2.rawCount⟩ hsat
  constructor
  · show (rows.foldl (processRow clean
        (ensureSource (processRows clean sourceName rows db0).2.sources
          (processRows clean sourceName rows db0).2.nextSourceId sourceName).1)
        ⟨⟨0, 0, 0⟩, (processRows clean sourceName rows db0).2.cleanKeys,
          (processRows clean sourceName rows db0).2.rawCount⟩).stats.duplicates
        = (rows.filterMap clean).length
    rw [hr2]
    rw [hmain.2]
    simp
  · show (rows.foldl (processRow clean
        (ensureSource (processRows clean sourceName rows db0).2.sources
          (processRows clean sourceName rows db0).2.nextSourceId sourceName).1)
        ⟨⟨0, 0, 0⟩, (processRows clean sourceName rows db0).2.cleanKeys,
          (processRows clean sourceName rows db0).2.rawCount⟩).cleanKeys
        = (processRows clean sourceName rows db0).2.cleanKeys
    rw [hr2]
    exact hmain.1

theorem zscore_at_local (sqrtQ : Rat → Rat) (values values' : List (Option Rat))
    (window i : Nat)
    (hagree : ∀ j : Nat, i - window ≤ j → j ≤ i → values[j]? = values'[j]?) :
    zscore_at sqrtQ values window i = zscore_at sqrtQ values' window i := by
  unfold zscore_at
  by_cases hiw : i < window
  · simp [hiw]
  · have hwin : window ≤ i := Nat.le_of_not_lt hiw
    have hslice : (values.drop (i - window)).take window
        = (values'.drop (i - window)).take window := by
      apply List.ext_getElem?
      intro t
      by_cases ht : t < window
      · rw [List.getElem?_take_of_lt ht, List.getElem?_take_of_lt ht,
          List.getElem?_drop, List.getElem?_drop]
        exact hagree (i - window + t) (by omega) (by omega)
      · have hlen1 : ((values.drop (i - window)).take window).length ≤ t :=
          le_trans (List.length_take_le _ _) (Nat.le_of_not_lt ht)
        have hlen2 : ((values'.drop (i - window)).take window).length ≤ t :=
          le_trans (List.length_take_le _ _) (Nat.le_of_not_lt ht)
        rw [List.getElem?_eq_none_iff.mpr hlen1, List.getElem?_eq_none_iff.mpr hlen2]
    rw [hslice, hagree i (by omega) (le_refl i)]

/-- C9: the rolling z-score at index `i` depends only on the prior window
`[i - window, i)` and the value at `i` itself; mutating values at later
indices leaves it unchanged. -/
theorem rolling_zscore_no_leakage (sqrtQ : Rat → Rat)
    (values values' : List (Option Rat)) (window i : Nat)
    (hlen : values.length = values'.length)
    (hagree : ∀ j : Nat, i - window ≤ j → j ≤ i → values[j]? = values'[j]?) :
    (rolling_zscores_prior_window sqrtQ values window)[i]?
      = (rolling_zscores_prior_window sqrtQ values' window)[i]? := by
  unfold rolling_zscores_prior_window
  by_cases hw : window ≤ 1
  · simp [hw, hlen]
  · simp only [if_neg hw]
    by_cases hi : i < values.length
    · rw [List.getElem?_map, List.getElem?_map, List.getElem?_range hi,
        List.getElem?_range (hlen ▸ hi)]
      exact congrArg (fun z => Option.map z (some i))
        (funext fun j => rfl) ▸ congrArg some (zscore_at_local sqrtQ values values' window i hagree)
    · have h1 : (List.range values.length).length ≤ i := by
        simpa using Nat.le_of_not_lt hi
      have h2 : (List.range values'.length).length ≤ i := by
        simp
        omega
      rw [List.getElem?_eq_none_iff.mpr (by simpa using h1),
        List.getElem?_eq_none_iff.mpr (by simpa using h2)]

theorem rolling_zscore_no_leakage_witness :
    (rolling_zscores_prior_window sqrtZero
        [some 1, some 2, some 3, some 4] 2)[2]?
      = (rolling_zscores_prior_window sqrtZero
        [some 1, some 2, some 3, some 7] 2)[2]? := by
  apply rolling_zscore_no_leakage
  · rfl
  · intro j h1 h2
    interval_cases j <;> rfl

/-- C8 counterexample: in `_rolling_zscores_prior_window`, the point at
index 2 whose prior window `[10, 10]` is flat and whose value 99 differs
from the constant receives no score at all (the loop skips on
`sigma == 0`), and `detect_anomalies` consequently never flags it —
contradicting the claimed flag and large-but-finite sentinel score. -/
theorem flat_window_sentinel_counterexample :
    rolling_zscores_prior_window sqrtZero [some 10, some 10, some 99] 2
        = [none, none, none]
    ∧ detect_anomalies sqrtZero [(0, some 10), (1, some 10), (2, some 99)] 2 3 = [] := by
  constructor
  · simp [rolling_zscores_prior_window, zscore_at, List.range_succ]
  · simp [detect_anomalies, rolling_zscores_prior_window, zscore_at, List.range_succ]

theorem sample_mean_replicate (n : Nat) (c : Rat) (hn : n ≠ 0) :
    sample_mean (List.replicate n c) = c := by
  unfold sample_mean
  rw [List.sum_replicate, List.length_replicate, nsmul_eq_mul]
  exact mul_div_cancel_left₀ c (by exact_mod_cast hn)

theorem sample_var_replicate (n : Nat) (c : Rat) (hn : n ≠ 0) :
    sample_var (List.replicate n c) = 0 := by
  unfold sample_var
  rw [sample_mean_replicate n c hn]
  rw [List.map_replicate]
  simp

/-- C8 amended: in the inline rolling z-score endpoint
`anomaly_rolling_inline` (app/routers/metrics.py), a point whose prior
window consists of `n ≥ 2` copies of a constant `c` (flat window) is
flagged exactly when its value differs from `c`, and its score is always
present and finite: the large sentinel `Z_CLAMP = 1e9` when flagged and
`0` otherwise.  (The service-layer detector `_rolling_zscores_prior_window`
instead skips such points, per the recorded counterexample.) -/
theorem inline_flat_window_sentinel (sqrtQ : Rat → Rat)
    (series : List (Int × Option Rat)) (window : Nat) (zt : Rat) (i : Nat)
    (md : Int) (v : Rat) (n : Nat) (c : Rat)
    (hget : series[i]? = some (md, some v))
    (hrep : inline_prev_vals series window i = List.replicate n c)
    (hn : 2 ≤ n) :
    (anomaly_rolling_inline sqrtQ series window zt)[i]?
      = some ⟨md, some v, some (if v ≠ c then Z_CLAMP else 0), decide (v ≠ c)⟩ := by
  have hi : i < series.length := by
    by_contra h
    rw [List.getElem?_eq_none_iff.mpr (Nat.le_of_not_lt h)] at hget
    cases hget
  unfold anomaly_rolling_inline
  rw [List.getElem?_map, List.getElem?_range hi, Option.map_some']
  unfold inline_point_at
  rw [hget, hrep]
  have hnc : n ≠ 0 := by omega
  have hnot : ¬ ((List.replicate n c).length < 2) := by
    rw [List.length_replicate]; omega
  simp only [sample_var_replicate n c hnc, sample_mean_replicate n c hnc, hnot,
    if_false, le_refl, if_true]

theorem inline_flat_window_sentinel_witness :
    (anomaly_rolling_inline sqrtZero [(0, some 10), (1, some 10), (2, some 99)] 2 3)[2]?
      = some ⟨2, some 99, some Z_CLAMP, true⟩ := by
  have h := inline_flat_window_sentinel sqrtZero
      [(0, some 10), (1, some 10), (2, some 99)] 2 3 2 2 99 2 10 rfl rfl (by norm_num)
  exact h.trans (by decide)

instance : IsTotal NormRow (fun a b => a.metric_date ≤ b.metric_date) :=
  ⟨fun a b => le_total a.metric_date b.metric_date⟩

instance : IsTrans NormRow (fun a b => a.metric_date ≤ b.metric_date) :=
  ⟨fun _ _ _ hab hbc => le_trans hab hbc⟩

theorem mem_date_le_getLast (l : List NormRow)
    (hs : List.Sorted (fun a b => a.metric_date ≤ b.metric_date) l)
    (hne : l ≠ []) : ∀ a ∈ l, a.metric_date ≤ (l.getLast hne).metric_date := by
  induction l with
  | nil => simp at hne
  | cons x xs ih =>
      intro a ha
      cases xs with
      | nil =>
          rcases List.mem_cons.mp ha with h | h
          · subst h; rfl
          · simp at h
      | cons y ys =>
          rw [List.getLast_cons_cons]
          have hs' : List.Sorted (fun a b => a.metric_date ≤ b.metric_date) (y :: ys) :=
            (List.sorted_cons.mp hs).2
          rcases List.mem_cons.mp ha with h | h
          · subst h
            exact le_trans ((List.sorted_cons.mp hs).1 _ (List.getLast_mem _))
              (le_refl _)
          · exact ih hs' (List.cons_ne_nil y ys) a h

theorem pad_forward_mem (metric : String) (lastDt : Int) (k : Nat) (r : NormRow)
    (hr : r ∈ pad_forward metric lastDt k) :
    r.yhat = 0 ∧ r.yhat_lower = 0 ∧ r.yhat_upper = 0 ∧ lastDt < r.metric_date
    ∧ (lastDt % 86400 = 0 → r.metric_date % 86400 = 0) := by
  unfold pad_forward at hr
  rcases List.mem_map.mp hr with ⟨j, hj, rfl⟩
  refine ⟨rfl, rfl, rfl, ?_, fun h => ?_⟩
  · show lastDt < lastDt + 86400 * ((j : Int) + 1)
    omega
  · show (lastDt + 86400 * ((j : Int) + 1)) % 86400 = 0
    omega

theorem pad_forward_sorted (metric : String) (lastDt : Int) (k : Nat) :
    List.Sorted (fun a b => a.metric_date ≤ b.metric_date)
      (pad_forward metric lastDt k) := by
  unfold pad_forward
  refine List.Pairwise.map _ ?_ (List.pairwise_lt_range k)
  intro a b hab
  show lastDt + 86400 * ((a : Int) + 1) ≤ lastDt + 86400 * ((b : Int) + 1)
  have hab2 : (a : Int) < (b : Int) := by exact_mod_cast hab
  omega

theorem pad_forward_length (metric : String) (lastDt : Int) (k : Nat) :
    (pad_forward metric lastDt k).length = k := by
  simp [pad_forward]

/-- C4: evaluating the normalization at the failing input.  A stored
forecast row with `yhat = 5` and bounds `1, 2` passes through both
public-contract normalizers with its `yhat` left outside the reordered
band, so `yhat ≤ yhat_upper` fails — contradicting the documented
invariant (module docstring of app/routers/forecast.py and
tests/test_forecast_api.py): the code reorders the two bounds but never
clamps `yhat` into them. -/
theorem band_ordering_violation :
    ((normalize_rows [⟨0, some 5, some 1, some 2⟩] "m").head?).map
        (fun r => (r.yhat, r.yhat_lower, r.yhat_upper)) = some (5, 1, 2)
    ∧ ((normalize_forecast_rows [⟨0, some 5, some 1, some 2⟩] "m").head?).map
        (fun r => (r.yhat, r.yhat_lower, r.yhat_upper)) = some (5, 1, 2)
    ∧ ¬ ((5 : Rat) ≤ 2) := by
  refine ⟨rfl, rfl, by norm_num⟩

/-- C5 counterexample: on an empty list of stored forecast rows both
normalization implementations return an empty series — 0 points, not
the claimed exactly 7. -/
theorem normalize_empty_counterexample :
    normalize_rows [] "m" = [] ∧ normalize_forecast_rows [] "m" = []
    ∧ (normalize_rows [] "m").length = 0 := by
  refine ⟨rfl, rfl, rfl⟩

theorem sort_take_facts (raw : List RawForecastRow) (metric : String) :
    (sort_by_date (raw.map (norm_one_row metric))).length = raw.length
    ∧ List.Sorted (fun a b => a.metric_date ≤ b.metric_date)
        (sort_by_date (raw.map (norm_one_row metric)))
    ∧ ∀ r ∈ sort_by_date (raw.map (norm_one_row metric)), r.metric_date % 86400 = 0 := by
  refine ⟨?_, List.sorted_insertionSort _ _, ?_⟩
  · rw [sort_by_date, List.length_insertionSort, List.length_map]
  · intro r hr
    have hmem : r ∈ raw.map (norm_one_row metric) :=
      (List.perm_insertionSort _ _).mem_iff.mp hr
    rcases List.mem_map.mp hmem with ⟨x, _, rfl⟩
    show to_utc_midnight_z x.forecast_date % 86400 = 0
    unfold to_utc_midnight_z
    exact Int.mul_emod_right 86400 _

/-- C5 amended: for every NONEMPTY input list of stored forecast rows,
the public-contract normalization `_normalize_rows` returns exactly 7
points, in ascending date order, each date at UTC midnight; the first
`min 7 n` output points are the first 7 of the date-sorted input rows
(truncation in date order), and any further points are zero-valued
forward padding.  (An empty input yields an empty series, per the
recorded counterexample.) -/
theorem normalize_exactly_seven (raw : List RawForecastRow) (metric : String)
    (hne : raw ≠ []) :
    (normalize_rows raw metric).length = 7
    ∧ List.Sorted (fun a b => a.metric_date ≤ b.metric_date) (normalize_rows raw metric)
    ∧ (∀ r ∈ normalize_rows raw metric, r.metric_date % 86400 = 0)
    ∧ (normalize_rows raw metric).take (min 7 raw.length)
        = (sort_by_date (raw.map (norm_one_row metric))).take 7
    ∧ ∀ r ∈ (normalize_rows raw metric).drop (min 7 raw.length),
        r.yhat = 0 ∧ r.yhat_lower = 0 ∧ r.yhat_upper = 0 := by
  obtain ⟨hslen, hssort, hsmid⟩ := sort_take_facts raw metric
  set s := sort_by_date (raw.map (norm_one_row metric)) with hs
  set t := s.take 7 with ht
  have htsort : List.Sorted (fun a b => a.metric_date ≤ b.metric_date) t :=
    List.Pairwise.sublist (List.take_sublist 7 s) hssort
  have htmid : ∀ r ∈ t, r.metric_date % 86400 = 0 := fun r hr =>
    hsmid r ((List.take_sublist 7 s).mem hr)
  by_cases h7 : 7 ≤ raw.length
  · -- at least 7 rows: trim to the first 7 in date order, no padding
    have htlen : t.length = 7 := by
      rw [ht, List.length_take, hslen]
      omega
    have hcond : ¬ (t ≠ [] ∧ t.length < 7) := by
      rw [htlen]; simp
    have hout : normalize_rows raw metric
        = if t ≠ [] ∧ t.length < 7 then
            t ++ pad_forward metric (((t.getLast?).getD ⟨0, metric, 0, 0, 0⟩).metric_date)
              (7 - t.length)
          else t := rfl
    rw [hout, if_neg hcond]
    have hmin : min 7 raw.length = 7 := Nat.min_eq_left h7
    refine ⟨htlen, htsort, htmid, ?_, ?_⟩
    · rw [hmin, List.take_of_length_le (le_of_eq htlen)]
    · intro r hr
      rw [hmin, List.drop_eq_nil_of_le (le_of_eq htlen)] at hr
      simp at hr
  · -- fewer than 7 rows: keep them all and pad forward with zeros
    have hlt : raw.length < 7 := Nat.lt_of_not_le h7
    have hts : t = s := by
      rw [ht]
      exact List.take_of_length_le (by omega)
    have htlen : t.length = raw.length := by rw [hts, hslen]
    have htne : t ≠ [] := by
      have hpos : 0 < t.length := by
        rw [htlen]
        cases raw with
        | nil => exact absurd rfl hne
        | cons a l => simp
      exact List.length_pos.mp hpos
    have hcond : t ≠ [] ∧ t.length < 7 := ⟨htne, by rw [htlen]; exact hlt⟩
    set lastDt := ((t.getLast?).getD ⟨0, metric, 0, 0, 0⟩).metric_date with hlast
    have hout : normalize_rows raw metric
        = if t ≠ [] ∧ t.length < 7 then
            t ++ pad_forward metric lastDt (7 - t.length)
          else t := rfl
    rw [if_pos hcond] at hout
    have hlastval : lastDt = (t.getLast htne).metric_date := by
      rw [hlast, List.getLast?_eq_getLast_of_ne_nil htne]
      rfl
    have hlastmid : lastDt % 86400 = 0 := by
      rw [hlastval]
      exact htmid _ (List.getLast_mem htne)
    have hcross : ∀ a ∈ t, ∀ b ∈ pad_forward metric lastDt (7 - t.length),
        a.metric_date ≤ b.metric_date := by
      intro a ha b hb
      have h1 : a.metric_date ≤ lastDt := by
        rw [hlastval]
        exact mem_date_le_getLast t htsort htne a ha
      have h2 : lastDt < b.metric_date := (pad_forward_mem _ _ _ b hb).2.2.2.1
      omega
    rw [hout]
    have hmin : min 7 raw.length = raw.length := Nat.min_eq_right (le_of_lt hlt)
    refine ⟨?_, ?_, ?_, ?_, ?_⟩
    · rw [List.length_append, pad_forward_length]
      omega
    · exact List.pairwise_append.mpr ⟨htsort, pad_forward_sorted _ _ _, hcross⟩
    · intro r hr
      rcases List.mem_append.mp hr with h | h
      · exact htmid r h
      · exact (pad_forward_mem _ _ _ r h).2.2.2.2 hlastmid
    · rw [hmin, ← htlen, List.take_left]
    · intro r hr
      rw [hmin, ← htlen, List.drop_left] at hr
      have := pad_forward_mem _ _ _ r hr
      exact ⟨this.1, this.2.1, this.2.2.1⟩

theorem normalize_exactly_seven_witness :
    (normalize_rows [⟨0, some 1, some 2, some 3⟩] "m").length = 7 :=
  (normalize_exactly_seven [⟨0, some 1, some 2, some 3⟩] "m" (by simp)).1

theorem alookup_upd_agg {κ : Type} [DecidableEq κ] (m : List (κ × (Rat × Nat)))
    (k k' : κ) (v : Rat) :
    alookup (upd_agg m k v) k'
      = if k = k' then
          some (match alookup m k with
            | some sc => (sc.1 + v, sc.2 + 1)
            | none => (v, 1))
        else alookup m k' := by
  induction m with
  | nil =>
      by_cases h : k = k'
      · simp [upd_agg, alookup, h]
      · simp [upd_agg, alookup, h]
  | cons p rest ih =>
      obtain ⟨k0, sc⟩ := p
      by_cases h0 : k0 = k
      · subst h0
        by_cases h : k0 = k'
        · subst h
          simp [upd_agg, alookup]
        · simp [upd_agg, alookup, h]
      · rw [upd_agg, if_neg h0]
        by_cases h : k0 = k'
        · subst h
          rw [if_neg (fun hc => h0 hc.symm)]
          simp only [alookup, if_pos rfl]
          simp
        · simp only [alookup, if_neg h, if_neg h0]
          exact ih

theorem alookup_foldl_upd_agg {α κ : Type} [DecidableEq κ] (key : α → κ) (val : α → Rat)
    (es : List α) (m : List (κ × (Rat × Nat))) (k : κ) :
    alookup (es.foldl (fun acc e => upd_agg acc (key e) (val e)) m) k
      = es.foldl (fun acc e =>
          if key e = k then
            some (match acc with
              | some sc => (sc.1 + val e, sc.2 + 1)
              | none => (val e, 1))
          else acc) (alookup m k) := by
  induction es generalizing m with
  | nil => rfl
  | cons e rest ih =>
      rw [List.foldl_cons, List.foldl_cons, ih]
      congr 1
      rw [alookup_upd_agg]
      by_cases h : key e = k
      · rw [if_pos h, if_pos h, h]
      · rw [if_neg h, if_neg h]

theorem foldl_bump_some {α κ : Type} [DecidableEq κ] (key : α → κ) (val : α → Rat)
    (es : List α) (k : κ) (s : Rat) (c : Nat) :
    es.foldl (fun acc e =>
        if key e = k then
          some (match acc with
            | some sc => (sc.1 + val e, sc.2 + 1)
            | none => (val e, 1))
        else acc) (some (s, c))
      = some (s + ((es.filter (fun e => decide (key e = k))).map val).sum,
          c + (es.filter (fun e => decide (key e = k))).length) := by
  induction es generalizing s c with
  | nil => simp
  | cons e rest ih =>
      rw [List.foldl_cons]
      by_cases h : key e = k
      · rw [if_pos h]
        rw [ih (s + val e) (c + 1)]
        rw [List.filter_cons_of_pos (by simpa using h)]
        simp
        constructor
        · ring
        · omega
      · rw [if_neg h, ih s c, List.filter_cons_of_neg (by simpa using h)]

theorem foldl_bump_none_empty {α κ : Type} [DecidableEq κ] (key : α → κ) (val : α → Rat)
    (es : List α) (k : κ) (hf : es.filter (fun e => decide (key e = k)) = []) :
    es.foldl (fun acc e =>
        if key e = k then
          some (match acc with
            | some sc => (sc.1 + val e, sc.2 + 1)
            | none => (val e, 1))
        else acc) (none : Option (Rat × Nat))
      = none := by
  induction es with
  | nil => rfl
  | cons e rest ih =>
      rw [List.foldl_cons]
      by_cases h : key e = k
      · exfalso
        rw [List.filter_cons_of_pos (by simpa using h)] at hf
        cases hf
      · rw [if_neg h]
        rw [List.filter_cons_of_neg (by simpa using h)] at hf
        exact ih hf

theorem foldl_bump_none_some {α κ : Type} [DecidableEq κ] (key : α → κ) (val : α → Rat)
    (es : List α) (k : κ) (hf : es.filter (fun e => decide (key e = k)) ≠ []) :
    es.foldl (fun acc e =>
        if key e = k then
          some (match acc with
            | some sc => (sc.1 + val e, sc.2 + 1)
            | none => (val e, 1))
        else acc) (none : Option (Rat × Nat))
      = some (((es.filter (fun e => decide (key e = k))).map val).sum,
          (es.filter (fun e => decide (key e = k))).length) := by
  induction es with
  | nil => exact absurd rfl hf
  | cons e rest ih =>
      rw [List.foldl_cons]
      by_cases h : key e = k
      · rw [if_pos h, foldl_bump_some key val rest k (val e) 1]
        rw [List.filter_cons_of_pos (by simpa using h)]
        simp
        omega
      · rw [if_neg h]
        rw [List.filter_cons_of_neg (by simpa using h)] at hf ⊢
        exact ih hf

theorem alookup_group_empty {α κ : Type} [DecidableEq κ] (key : α → κ) (val : α → Rat)
    (es : List α) (k : κ) (hf : es.filter (fun e => decide (key e = k)) = []) :
    alookup (es.foldl (fun acc e => upd_agg acc (key e) (val e)) []) k = none := by
  rw [alookup_foldl_upd_agg]
  exact foldl_bump_none_empty key val es k hf

theorem alookup_group_some {α κ : Type} [DecidableEq κ] (key : α → κ) (val : α → Rat)
    (es : List α) (k : κ) (hf : es.filter (fun e => decide (key e = k)) ≠ []) :
    alookup (es.foldl (fun acc e => upd_agg acc (key e) (val e)) []) k
      = some (((es.filter (fun e => decide (key e = k))).map val).sum,
          (es.filter (fun e => decide (key e = k))).length) := by
  rw [alookup_foldl_upd_agg]
  exact foldl_bump_none_some key val es k hf

theorem alookup_mem {κ : Type} [DecidableEq κ] (m : List (κ × (Rat × Nat))) (k : κ)
    (sc : Rat × Nat) (h : alookup m k = some sc) : (k, sc) ∈ m := by
  induction m with
  | nil => simp [alookup] at h
  | cons p rest ih =>
      obtain ⟨k0, sc0⟩ := p
      by_cases h0 : k0 = k
      · subst h0
        rw [alookup, if_pos rfl] at h
        cases h
        exact List.mem_cons_self _ _
      · rw [alookup, if_neg h0] at h
        exact List.mem_cons_of_mem _ (ih h)

theorem alookup_isSome_of_mem {κ : Type} [DecidableEq κ] (m : List (κ × (Rat × Nat)))
    (kv : κ × (Rat × Nat)) (h : kv ∈ m) : alookup m kv.1 ≠ none := by
  induction m with
  | nil => simp at h
  | cons p rest ih =>
      obtain ⟨k0, sc0⟩ := p
      rcases List.mem_cons.mp h with rfl | hmem
      · rw [alookup, if_pos rfl]
        simp
      · by_cases h0 : k0 = kv.1
        · rw [alookup, if_pos h0]
          simp
        · rw [alookup, if_neg h0]
          exact ih hmem

theorem mem_keys_upd_agg {κ : Type} [DecidableEq κ] (m : List (κ × (Rat × Nat)))
    (k k' : κ) (v : Rat) :
    k' ∈ (upd_agg m k v).map Prod.fst ↔ (k' = k ∨ k' ∈ m.map Prod.fst) := by
  induction m with
  | nil => simp [upd_agg]
  | cons p rest ih =>
      obtain ⟨k0, sc⟩ := p
      by_cases h0 : k0 = k
      · subst h0
        simp [upd_agg]
      · rw [upd_agg, if_neg h0]
        simp [ih]
        tauto

theorem nodup_keys_upd_agg {κ : Type} [DecidableEq κ] (m : List (κ × (Rat × Nat)))
    (k : κ) (v : Rat) (h : (m.map Prod.fst).Nodup) :
    ((upd_agg m k v).map Prod.fst).Nodup := by
  induction m with
  | nil => simp [upd_agg]
  | cons p rest ih =>
      obtain ⟨k0, sc⟩ := p
      rw [List.map_cons, List.nodup_cons] at h
      by_cases h0 : k0 = k
      · subst h0
        rw [upd_agg, if_pos rfl, List.map_cons, List.nodup_cons]
        exact h
      · rw [upd_agg, if_neg h0, List.map_cons, List.nodup_cons]
        constructor
        · rw [mem_keys_upd_agg]
          rintro (rfl | hmem)
          · exact h0 rfl
          · exact h.1 hmem
        · exact ih h.2

theorem nodup_keys_foldl_upd_agg {α κ : Type} [DecidableEq κ] (key : α → κ)
    (val : α → Rat) (es : List α) (m : List (κ × (Rat × Nat)))
    (h : (m.map Prod.fst).Nodup) :
    ((es.foldl (fun acc e => upd_agg acc (key e) (val e)) m).map Prod.fst).Nodup := by
  induction es generalizing m with
  | nil => exact h
  | cons e rest ih =>
      rw [List.foldl_cons]
      exact ih _ (nodup_keys_upd_agg m (key e) (val e) h)

theorem md_upsert_replace_cons (st : MdStore) (r : KpiOut) (rest : List KpiOut) :
    md_upsert_replace st (r :: rest)
      = md_upsert_replace (fun k =>
          if k = kpi_out_key r then some ⟨r.value_sum, some r.value_avg, r.value_count⟩
          else st k) rest := rfl

theorem md_upsert_replace_miss (rows : List KpiOut) (st : MdStore) (k : AggKey)
    (h : ∀ r ∈ rows, kpi_out_key r ≠ k) :
    md_upsert_replace st rows k = st k := by
  induction rows generalizing st with
  | nil => rfl
  | cons r rest ih =>
      rw [md_upsert_replace_cons]
      rw [ih _ (fun r' h' => h r' (List.mem_cons_of_mem _ h'))]
      rw [if_neg (fun hc => h r (List.mem_cons_self _ _) hc.symm)]

theorem md_upsert_replace_hit (rows : List KpiOut) (st : MdStore) (r : KpiOut)
    (hr : r ∈ rows) (huniq : ∀ r' ∈ rows, r' ≠ r → kpi_out_key r' ≠ kpi_out_key r) :
    md_upsert_replace st rows (kpi_out_key r)
      = some ⟨r.value_sum, some r.value_avg, r.value_count⟩ := by
  induction rows generalizing st with
  | nil => simp at hr
  | cons r0 rest ih =>
      rw [md_upsert_replace_cons]
      by_cases hmem : r ∈ rest
      · exact ih _ hmem (fun r' h' hne => huniq r' (List.mem_cons_of_mem _ h') hne)
      · have hr0 : r0 = r := by
          rcases List.mem_cons.mp hr with h | h
          · exact h.symm
          · exact absurd h hmem
        subst hr0
        rw [md_upsert_replace_miss _ _ _ (fun r' h' =>
          huniq r' (List.mem_cons_of_mem _ h') (by rintro rfl; exact hmem h'))]
        rw [if_pos rfl]

theorem alookup_kpi_group_some (es : List CleanEv) (k : AggKey)
    (hf : es.filter (fun ev => decide ((utc_day ev.ts, ev.source_id, ev.metric) = k)) ≠ []) :
    alookup (kpi_group es) k
      = some (((es.filter
            (fun ev => decide ((utc_day ev.ts, ev.source_id, ev.metric) = k))).map
            (fun ev => ev.value)).sum,
          (es.filter
            (fun ev => decide ((utc_day ev.ts, ev.source_id, ev.metric) = k))).length) := by
  unfold kpi_group
  exact alookup_group_some (fun ev : CleanEv => (utc_day ev.ts, ev.source_id, ev.metric))
    (fun ev : CleanEv => ev.value) es k hf

theorem alookup_kpi_group_empty (es : List CleanEv) (k : AggKey)
    (hf : es.filter (fun ev => decide ((utc_day ev.ts, ev.source_id, ev.metric) = k)) = []) :
    alookup (kpi_group es) k = none := by
  unfold kpi_group
  exact alookup_group_empty (fun ev : CleanEv => (utc_day ev.ts, ev.source_id, ev.metric))
    (fun ev : CleanEv => ev.value) es k hf

theorem nodup_keys_kpi_group (es : List CleanEv) :
    ((kpi_group es).map Prod.fst).Nodup := by
  unfold kpi_group
  exact nodup_keys_foldl_upd_agg (fun ev : CleanEv => (utc_day ev.ts, ev.source_id, ev.metric))
    (fun ev : CleanEv => ev.value) es [] (by simp)

theorem kpi_aggregates_keys (es : List CleanEv) :
    (kpi_aggregates es).map kpi_out_key = (kpi_group es).map Prod.fst := by
  unfold kpi_aggregates
  rw [List.map_map]
  rfl

/-- C2: rollup correctness of `run_daily_kpis`.  For every aggregate key
whose CleanEvent rows in the recomputed range are v1..vn (n ≥ 1), the
stored metric_daily row holds value_sum = Σvi, value_count = n and
value_avg = Σvi / n; for a key with zero matching rows no aggregate row
is emitted and the store is untouched at that key. -/
theorem rollup_correct (db : List CleanEv) (start? stop? : Option Int)
    (metric_name : Option String) (source_id : Option Nat) (st : MdStore) (k : AggKey) :
    (kpi_matching db start? stop? metric_name source_id k ≠ [] →
      (run_daily_kpis db start? stop? metric_name source_id st).2.2 k
        = some ⟨((kpi_matching db start? stop? metric_name source_id k).map (·.value)).sum,
            some (((kpi_matching db start? stop? metric_name source_id k).map (·.value)).sum
              / ((kpi_matching db start? stop? metric_name source_id k).length : Rat)),
            (kpi_matching db start? stop? metric_name source_id k).length⟩)
    ∧ (kpi_matching db start? stop? metric_name source_id k = [] →
      (∀ r ∈ (run_daily_kpis db start? stop? metric_name source_id st).2.1,
          kpi_out_key r ≠ k)
      ∧ (run_daily_kpis db start? stop? metric_name source_id st).2.2 k = st k) := by
  cases hrange : kpi_range db start? stop? with
  | none =>
      have hfilt : kpi_filtered db start? stop? metric_name source_id = [] := by
        unfold kpi_filtered; rw [hrange]
      have hmatch : kpi_matching db start? stop? metric_name source_id k = [] := by
        unfold kpi_matching; rw [hfilt]; rfl
      have hrun : run_daily_kpis db start? stop? metric_name source_id st = (0, [], st) := by
        unfold run_daily_kpis; rw [hrange]
      refine ⟨fun hne => absurd hmatch hne, fun _ => ?_⟩
      rw [hrun]
      exact ⟨by intro r hr; simp at hr, rfl⟩
  | some se =>
      cases hfe : kpi_filtered db start? stop? metric_name source_id with
      | nil =>
          have hmatch : kpi_matching db start? stop? metric_name source_id k = [] := by
            unfold kpi_matching; rw [hfe]; rfl
          have hrun : run_daily_kpis db start? stop? metric_name source_id st
              = (0, [], st) := by
            unfold run_daily_kpis; rw [hrange, hfe]
          refine ⟨fun hne => absurd hmatch hne, fun _ => ?_⟩
          rw [hrun]
          exact ⟨by intro r hr; simp at hr, rfl⟩
      | cons e rest =>
          have hrun : run_daily_kpis db start? stop? metric_name source_id st
              = ((kpi_aggregates (e :: rest)).length, kpi_aggregates (e :: rest),
                  md_upsert_replace st (kpi_aggregates (e :: rest))) := by
            unfold run_daily_kpis; rw [hrange, hfe]
          have hmatchdef : kpi_matching db start? stop? metric_name source_id k
              = (e :: rest).filter
                  (fun ev => decide ((utc_day ev.ts, ev.source_id, ev.metric) = k)) := by
            unfold kpi_matching; rw [hfe]
          have hnodup : ((kpi_group (e :: rest)).map Prod.fst).Nodup :=
            nodup_keys_kpi_group (e :: rest)
          constructor
          · intro hne
            rw [hmatchdef] at hne
            have hlook : alookup (kpi_group (e :: rest)) k
                = some ((((e :: rest).filter
                      (fun ev => decide ((utc_day ev.ts, ev.source_id, ev.metric) = k))).map
                      (fun ev => ev.value)).sum,
                    ((e :: rest).filter
                      (fun ev => decide ((utc_day ev.ts, ev.source_id, ev.metric) = k))).length) :=
              alookup_kpi_group_some (e :: rest) k hne
            have hmem := alookup_mem _ _ _ hlook
            have hrowmem : (⟨k.1, k.2.1, k.2.2,
                (((e :: rest).filter
                    (fun ev => decide ((utc_day ev.ts, ev.source_id, ev.metric) = k))).map
                    (fun ev => ev.value)).sum,
                if (((e :: rest).filter
                    (fun ev => decide ((utc_day ev.ts, ev.source_id, ev.metric) = k))).length) ≠ 0
                then (((e :: rest).filter
                    (fun ev => decide ((utc_day ev.ts, ev.source_id, ev.metric) = k))).map
                    (fun ev => ev.value)).sum
                  / ((((e :: rest).filter
                    (fun ev => decide ((utc_day ev.ts, ev.source_id, ev.metric) = k))).length : Nat) : Rat)
                else 0,
                (((e :: rest).filter
                    (fun ev => decide ((utc_day ev.ts, ev.source_id, ev.metric) = k))).length)⟩ : KpiOut)
                ∈ kpi_aggregates (e :: rest) := by
              unfold kpi_aggregates
              exact List.mem_map.mpr ⟨_, hmem, rfl⟩
            have hlen0 : (((e :: rest).filter
                (fun ev => decide ((utc_day ev.ts, ev.source_id, ev.metric) = k))).length) ≠ 0 := by
              intro hc
              exact hne (List.length_eq_zero.mp hc)
            rw [hrun]
            have huniq : ∀ r' ∈ kpi_aggregates (e :: rest),
                ∀ r ∈ kpi_aggregates (e :: rest),
                  kpi_out_key r' = kpi_out_key r → r' = r := by
              intro r' h' r h hk
              have hkeys : ((kpi_aggregates (e :: rest)).map kpi_out_key).Nodup := by
                rw [kpi_aggregates_keys]; exact hnodup
              exact List.inj_on_of_nodup_map hkeys h' h hk
            have hfinal := md_upsert_replace_hit (kpi_aggregates (e :: rest)) st _ hrowmem
              (fun r' h' hne' hk => hne' (huniq r' h' _ hrowmem hk))
            rw [hmatchdef]
            rw [if_pos hlen0] at hfinal
            exact hfinal
          · intro hm
            rw [hmatchdef] at hm
            have hnol : alookup (kpi_group (e :: rest)) k = none :=
              alookup_kpi_group_empty (e :: rest) k hm
            have hnokey : ∀ r ∈ kpi_aggregates (e :: rest), kpi_out_key r ≠ k := by
              intro r hr hk
              unfold kpi_aggregates at hr
              rcases List.mem_map.mp hr with ⟨kv, hkv, rfl⟩
              have : kv.1 = k := hk
              have h2 := alookup_isSome_of_mem _ _ hkv
              rw [this, hnol] at h2
              exact h2 rfl
            rw [hrun]
            exact ⟨hnokey, md_upsert_replace_miss _ _ _ hnokey⟩

theorem rollup_correct_witness :
    (run_daily_kpis ex_db none none none none (fun _ => none)).2.2 (0, 1, "events_total")
      = some ⟨9, some (9 / 2), 2⟩ := by
  have h := (rollup_correct ex_db none none none none (fun _ => none)
      (0, 1, "events_total")).1 (by decide)
  have hm : kpi_matching ex_db none none none none (0, 1, "events_total") = ex_db := by
    decide
  rw [hm] at h
  refine h.trans ?_
  norm_num [ex_db]

theorem insert_clean_mono (sid : Nat) (events : List StreamEvent)
    (acc : Nat × Finset CleanKey) :
    acc.2 ⊆ (events.foldl (fun acc e =>
      if ((sid, e.tsUtc, e.metric) : CleanKey) ∈ acc.2 then acc
      else (acc.1 + 1, insert ((sid, e.tsUtc, e.metric) : CleanKey) acc.2)) acc).2 := by
  induction events generalizing acc with
  | nil => exact fun k hk => hk
  | cons e rest ih =>
      rw [List.foldl_cons]
      intro k hk
      by_cases h : ((sid, e.tsUtc, e.metric) : CleanKey) ∈ acc.2
      · rw [if_pos h]
        exact ih acc hk
      · rw [if_neg h]
        exact ih _ (Finset.mem_insert_of_mem hk)

theorem insert_clean_mem (sid : Nat) (events : List StreamEvent)
    (acc : Nat × Finset CleanKey) :
    ∀ e ∈ events, ((sid, e.tsUtc, e.metric) : CleanKey) ∈ (events.foldl (fun acc e =>
      if ((sid, e.tsUtc, e.metric) : CleanKey) ∈ acc.2 then acc
      else (acc.1 + 1, insert ((sid, e.tsUtc, e.metric) : CleanKey) acc.2)) acc).2 := by
  induction events generalizing acc with
  | nil => intro e he; simp at he
  | cons e0 rest ih =>
      intro e he
      rw [List.foldl_cons]
      rcases List.mem_cons.mp he with rfl | hmem
      · by_cases h : ((sid, e.tsUtc, e.metric) : CleanKey) ∈ acc.2
        · rw [if_pos h]
          exact insert_clean_mono sid rest acc h
        · rw [if_neg h]
          exact insert_clean_mono sid rest _ (Finset.mem_insert_self _ _)
      · by_cases h : ((sid, e0.tsUtc, e0.metric) : CleanKey) ∈ acc.2
        · rw [if_pos h]
          exact ih acc e hmem
        · rw [if_neg h]
          exact ih _ e hmem

theorem insert_clean_saturated (sid : Nat) (events : List StreamEvent)
    (acc : Nat × Finset CleanKey)
    (hsat : ∀ e ∈ events, ((sid, e.tsUtc, e.metric) : CleanKey) ∈ acc.2) :
    events.foldl (fun acc e =>
      if ((sid, e.tsUtc, e.metric) : CleanKey) ∈ acc.2 then acc
      else (acc.1 + 1, insert ((sid, e.tsUtc, e.metric) : CleanKey) acc.2)) acc = acc := by
  induction events with
  | nil => rfl
  | cons e rest ih =>
      rw [List.foldl_cons, if_pos (hsat e (List.mem_cons_self _ _))]
      exact ih (fun e' h' => hsat e' (List.mem_cons_of_mem _ h'))

theorem md_upsert_add_cons (sid : Nat) (st : MdStore) (g : (Int × String) × (Rat × Nat))
    (rest : List ((Int × String) × (Rat × Nat))) :
    md_upsert_add sid st (g :: rest)
      = md_upsert_add sid (fun k =>
          if k = (g.1.1, sid, g.1.2) then
            match st (g.1.1, sid, g.1.2) with
            | some r => some ⟨r.value_sum + g.2.1, none, r.value_count + g.2.2⟩
            | none => some ⟨g.2.1, none, g.2.2⟩
          else st k) rest := rfl

theorem md_upsert_add_miss (grouped : List ((Int × String) × (Rat × Nat)))
    (sid : Nat) (st : MdStore) (k : AggKey)
    (h : ∀ g ∈ grouped, ((g.1.1, sid, g.1.2) : AggKey) ≠ k) :
    md_upsert_add sid st grouped k = st k := by
  induction grouped generalizing st with
  | nil => rfl
  | cons g rest ih =>
      rw [md_upsert_add_cons]
      rw [ih _ (fun g' h' => h g' (List.mem_cons_of_mem _ h'))]
      rw [if_neg (fun hc => h g (List.mem_cons_self _ _) hc.symm)]

theorem md_upsert_add_hit (grouped : List ((Int × String) × (Rat × Nat)))
    (sid : Nat) (st : MdStore) (g : (Int × String) × (Rat × Nat))
    (hg : g ∈ grouped) (hnd : (grouped.map Prod.fst).Nodup) :
    md_upsert_add sid st grouped (g.1.1, sid, g.1.2)
      = some (match st (g.1.1, sid, g.1.2) with
          | some r => (⟨r.value_sum + g.2.1, none, r.value_count + g.2.2⟩ : MdRow)
          | none => ⟨g.2.1, none, g.2.2⟩) := by
  induction grouped generalizing st with
  | nil => simp at hg
  | cons g0 rest ih =>
      rw [List.map_cons, List.nodup_cons] at hnd
      rw [md_upsert_add_cons]
      rcases List.mem_cons.mp hg with rfl | hmem
      · have hmiss : ∀ g' ∈ rest, ((g'.1.1, sid, g'.1.2) : AggKey) ≠ (g.1.1, sid, g.1.2) := by
          intro g' h' hc
          apply hnd.1
          have h1 : g'.1.1 = g.1.1 := congrArg (fun p : AggKey => p.1) hc
          have h2 : g'.1.2 = g.1.2 := congrArg (fun p : AggKey => p.2.2) hc
          have : g'.1 = g.1 := Prod.ext h1 h2
          rw [← this]
          exact List.mem_map.mpr ⟨g', h', rfl⟩
        rw [md_upsert_add_miss rest sid _ _ hmiss, if_pos rfl]
        cases st (g.1.1, sid, g.1.2) <;> rfl
      · have hne : ((g0.1.1, sid, g0.1.2) : AggKey) ≠ (g.1.1, sid, g.1.2) := by
          intro hc
          apply hnd.1
          have h1 : g0.1.1 = g.1.1 := congrArg (fun p : AggKey => p.1) hc
          have h2 : g0.1.2 = g.1.2 := congrArg (fun p : AggKey => p.2.2) hc
          have : g0.1 = g.1 := Prod.ext h1 h2
          rw [this]
          exact List.mem_map.mpr ⟨g, hmem, rfl⟩
        rw [ih _ hmem hnd.2]
        rw [if_neg (fun hc => hne hc.symm)]

theorem nodup_keys_stream_grouped (events : List StreamEvent) :
    ((stream_grouped events).map Prod.fst).Nodup := by
  unfold stream_grouped
  exact nodup_keys_foldl_upd_agg (fun e : StreamEvent => (local_day e, e.metric))
    (fun e : StreamEvent => e.value) events [] (by simp)

/-- C10: the streaming-ingest increment upsert adds the batch's full
per-day sums and counts regardless of duplicates skipped by the
insert-or-ignore clean-event write: posting an identical batch twice
onto a fresh (day, source, metric) key doubles value_sum and value_count
in metric_daily while the clean_events key set stays unchanged on the
second post. -/
theorem stream_ingest_double (name : String) (events : List StreamEvent) (db0 : StreamDb)
    (d : Int) (met : String) (s : Rat) (c : Nat)
    (hg : alookup (stream_grouped events) (d, met) = some (s, c))
    (h0 : db0.metricDaily (d, stream_sid db0 name, met) = none) :
    (ingest_batch name events db0).2.metricDaily (d, stream_sid db0 name, met)
        = some ⟨s, none, c⟩
    ∧ (ingest_batch name events (ingest_batch name events db0).2).2.metricDaily
        (d, stream_sid db0 name, met) = some ⟨s + s, none, c + c⟩
    ∧ (ingest_batch name events (ingest_batch name events db0).2).2.cleanKeys
        = (ingest_batch name events db0).2.cleanKeys := by
  have hmem : ((d, met), (s, c)) ∈ stream_grouped events := alookup_mem _ _ _ hg
  have hnd := nodup_keys_stream_grouped events
  have hr' : ensureSource (ingest_batch name events db0).2.sources
      (ingest_batch name events db0).2.nextSourceId name
      = ensureSource db0.sources db0.nextSourceId name := by
    show ensureSource (ensureSource db0.sources db0.nextSourceId name).2.1
      (ensureSource db0.sources db0.nextSourceId name).2.2 name = _
    exact ensureSource_idem db0.sources db0.nextSourceId name
  have hit1 := md_upsert_add_hit (stream_grouped events) (stream_sid db0 name)
    db0.metricDaily ((d, met), (s, c)) hmem hnd
  rw [show (((d, met), (s, c)).1.1, stream_sid db0 name, ((d, met), (s, c)).1.2)
      = (d, stream_sid db0 name, met) from rfl] at hit1
  rw [h0] at hit1
  have hc1 : (ingest_batch name events db0).2.metricDaily (d, stream_sid db0 name, met)
      = some ⟨s, none, c⟩ := hit1
  refine ⟨hc1, ?_, ?_⟩
  · have hit2 := md_upsert_add_hit (stream_grouped events) (stream_sid db0 name)
      (ingest_batch name events db0).2.metricDaily ((d, met), (s, c)) hmem hnd
    rw [show (((d, met), (s, c)).1.1, stream_sid db0 name, ((d, met), (s, c)).1.2)
        = (d, stream_sid db0 name, met) from rfl] at hit2
    rw [hc1] at hit2
    show md_upsert_add (ensureSource (ingest_batch name events db0).2.sources
        (ingest_batch name events db0).2.nextSourceId name).1
        (ingest_batch name events db0).2.metricDaily (stream_grouped events)
        (d, stream_sid db0 name, met) = some ⟨s + s, none, c + c⟩
    rw [hr']
    exact hit2
  · show (insert_clean_events_strict (ensureSource (ingest_batch name events db0).2.sources
        (ingest_batch name events db0).2.nextSourceId name).1 events
        (ingest_batch name events db0).2.cleanKeys).2
      = (ingest_batch name events db0).2.cleanKeys
    rw [hr']
    have hsat : ∀ e ∈ events,
        ((stream_sid db0 name, e.tsUtc, e.metric) : CleanKey)
          ∈ (ingest_batch name events db0).2.cleanKeys := by
      intro e he
      exact insert_clean_mem (stream_sid db0 name) events (0, db0.cleanKeys) e he
    have h2 := insert_clean_saturated (stream_sid db0 name) events
      (0, (ingest_batch name events db0).2.cleanKeys) hsat
    have h3 := congrArg Prod.snd h2
    exact h3

theorem stream_ingest_double_witness :
    (ingest_batch "src" ex_batch (ingest_batch "src" ex_batch ex_stream_db).2).2.metricDaily
        (0, stream_sid ex_stream_db "src", "m") = some ⟨18, none, 4⟩ := by
  have h := stream_ingest_double "src" ex_batch ex_stream_db 0 "m" 9 2
    (by simp +decide [stream_grouped, ex_batch, local_day, upd_agg, alookup]
        norm_num) rfl
  exact h.2.1.trans (by norm_num)

theorem foldl_max_mem (ds : List Int) (d : Int) :
    ds.foldl max d = d ∨ ds.foldl max d ∈ ds := by
  induction ds generalizing d with
  | nil => left; rfl
  | cons e es ih =>
      rw [List.foldl_cons]
      rcases ih (max d e) with h | h
      · rw [h]
        rcases max_choice d e with h2 | h2
        · left; exact h2
        · right; rw [h2]; exact List.mem_cons_self _ _
      · right; exact List.mem_cons_of_mem _ h

theorem mem_fst_le_getLast (s : List (Int × Rat))
    (hs : List.Sorted (fun a b : Int × Rat => a.1 ≤ b.1) s) (hne : s ≠ []) :
    ∀ a ∈ s, a.1 ≤ (s.getLast hne).1 := by
  induction s with
  | nil => simp at hne
  | cons x xs ih =>
      intro a ha
      cases xs with
      | nil =>
          rcases List.mem_cons.mp ha with h | h
          · subst h; rfl
          · simp at h
      | cons y ys =>
          rw [List.getLast_cons_cons]
          have hs' : List.Sorted (fun a b : Int × Rat => a.1 ≤ b.1) (y :: ys) :=
            (List.sorted_cons.mp hs).2
          rcases List.mem_cons.mp ha with h | h
          · subst h
            exact (List.sorted_cons.mp hs).1 _ (List.getLast_mem _)
          · exact ih hs' (List.cons_ne_nil y ys) a h

theorem series_max_le_last (s : List (Int × Rat)) (hne : s ≠ [])
    (hs : List.Sorted (fun a b : Int × Rat => a.1 ≤ b.1) s) :
    series_max_date s ≤ series_last_date s := by
  cases s with
  | nil => exact absurd rfl hne
  | cons p rest =>
      have hlast : series_last_date (p :: rest)
          = ((p :: rest).getLast (List.cons_ne_nil p rest)).1 := by
        unfold series_last_date
        rw [List.getLast?_eq_getLast_of_ne_nil (List.cons_ne_nil p rest)]
        rfl
      have hmax : series_max_date (p :: rest) = p.1
          ∨ series_max_date (p :: rest) ∈ rest.map Prod.fst := by
        unfold series_max_date
        simp only [List.map_cons]
        exact foldl_max_mem _ _
      rcases hmax with h | h
      · rw [hlast, h]
        exact mem_fst_le_getLast _ hs _ p (List.mem_cons_self _ _)
      · obtain ⟨a, ha, hfst⟩ := List.mem_map.mp h
        rw [hlast, ← hfst]
        exact mem_fst_le_getLast _ hs _ a (List.mem_cons_of_mem _ ha)

theorem mem_zipWith_fr {α β γ : Type} (f : α → β → γ) (l1 : List α) (l2 : List β) (c : γ)
    (hc : c ∈ List.zipWith f l1 l2) : ∃ a ∈ l1, ∃ b ∈ l2, c = f a b := by
  induction l1 generalizing l2 with
  | nil => simp at hc
  | cons a l1 ih =>
      cases l2 with
      | nil => simp at hc
      | cons b l2 =>
          rw [List.zipWith_cons_cons] at hc
          rcases List.mem_cons.mp hc with rfl | hmem
          · exact ⟨a, List.mem_cons_self _ _, b, List.mem_cons_self _ _, rfl⟩
          · obtain ⟨a', ha, b', hb, rfl⟩ := ih l2 hmem
            exact ⟨a', List.mem_cons_of_mem _ ha, b', List.mem_cons_of_mem _ hb, rfl⟩

theorem write_forecast_changes (rows : List FRow) (st : FcStore) (d : Int)
    (h : write_forecast st rows d ≠ st d) : ∃ r ∈ rows, d = r.target_date := by
  induction rows generalizing st with
  | nil => exact absurd rfl h
  | cons r rest ih =>
      have hcons : write_forecast st (r :: rest)
          = write_forecast (fun d' => if d' = r.target_date then some r else st d') rest := rfl
      by_cases h2 : write_forecast
          (fun d' => if d' = r.target_date then some r else st d') rest d
          = (fun d' => if d' = r.target_date then some r else st d') d
      · by_cases hd : d = r.target_date
        · exact ⟨r, List.mem_cons_self _ _, hd⟩
        · exfalso
          apply h
          rw [hcons, h2]
          simp [hd]
      · obtain ⟨r', hr', hd⟩ := ih _ h2
        exact ⟨r', List.mem_cons_of_mem _ hr', hd⟩

theorem train_sarimax_dates (sarimaxAvail : Bool) (fit : FitOracle) (today : Int)
    (s : List (Int × Rat)) (horizon : Nat) (df : List FRow) (hne : s ≠ [])
    (hok : train_sarimax_and_forecast sarimaxAvail fit today s horizon = Except.ok df) :
    ∀ r ∈ df, series_max_date s < r.target_date := by
  unfold train_sarimax_and_forecast at hok
  by_cases hz : s = [] ∨ series_sum s = 0
  · rw [if_pos hz] at hok
    injection hok with hdf
    subst hdf
    intro r hr
    rcases List.mem_map.mp hr with ⟨i, _, rfl⟩
    show series_max_date s < ((if s = [] then today else series_max_date s) + 1) + (i : Int)
    rw [if_neg hne]
    omega
  · rw [if_neg hz] at hok
    by_cases ha : sarimaxAvail = false
    · rw [if_pos ha] at hok
      injection hok with hdf
      subst hdf
      intro r hr
      rcases List.mem_map.mp hr with ⟨i, _, rfl⟩
      show series_max_date s < series_max_date s + 1 + (i : Int)
      omega
    · rw [if_neg ha] at hok
      cases hfit : fit with
      | error e => rw [hfit] at hok; cases hok
      | ok vals =>
          rw [hfit] at hok
          injection hok with hdf
          subst hdf
          intro r hr
          obtain ⟨a, ha', b, _, rfl⟩ := mem_zipWith_fr _ _ _ r hr
          rcases List.mem_map.mp ha' with ⟨i, _, rfl⟩
          show series_max_date s < series_max_date s + 1 + (i : Int)
          omega

/-- C3: every ForecastPoint row persisted by a run of `run_forecast` —
on the statistical-model path, the degraded paths and the
constant-hold fallback path alike — has a target_date strictly greater
than the last observed DailyAggregate date of the fetched series. -/
theorem forecast_future_only (sarimaxAvail : Bool) (fit : FitOracle) (today : Int)
    (s : List (Int × Rat)) (horizon : Nat) (st : FcStore) (df : List FRow) (st2 : FcStore)
    (hne : s ≠ [])
    (hsorted : List.Sorted (fun a b : Int × Rat => a.1 ≤ b.1) s)
    (hok : run_forecast sarimaxAvail fit today s horizon st = Except.ok (df, st2)) :
    (∀ r ∈ df, series_max_date s < r.target_date)
    ∧ ∀ d : Int, st2 d ≠ st d → series_max_date s < d := by
  have hml : series_max_date s ≤ series_last_date s := series_max_le_last s hne hsorted
  unfold run_forecast at hok
  by_cases hlen : s.length < 14
  · rw [if_pos hlen] at hok
    injection hok with hpair
    injection hpair with hdf hst
    have hdates : ∀ r ∈ df, series_max_date s < r.target_date := by
      intro r hr
      rw [← hdf] at hr
      rcases List.mem_map.mp hr with ⟨i, _, rfl⟩
      show series_max_date s
        < (if s = [] then today else series_last_date s + 1) + (i : Int)
      rw [if_neg hne]
      omega
    refine ⟨hdates, fun d hch => ?_⟩
    rw [← hst] at hch
    obtain ⟨r, hr, rfl⟩ := write_forecast_changes _ st d hch
    exact hdates r (by rw [← hdf]; exact hr)
  · rw [if_neg hlen] at hok
    cases htr : train_sarimax_and_forecast sarimaxAvail fit today s horizon with
    | error e => rw [htr] at hok; cases hok
    | ok df0 =>
        rw [htr] at hok
        injection hok with hpair
        injection hpair with hdf hst
        subst hdf
        have hdates := train_sarimax_dates sarimaxAvail fit today s horizon df0 hne htr
        refine ⟨hdates, fun d hch => ?_⟩
        rw [← hst] at hch
        obtain ⟨r, hr, rfl⟩ := write_forecast_changes _ st d hch
        exact hdates r hr

theorem forecast_future_only_witness :
    series_max_date [((0 : Int), (5 : Rat))] < (⟨1, 5, 5, 5⟩ : FRow).target_date := by
  have h := forecast_future_only false (Except.error ()) 0 [((0 : Int), (5 : Rat))] 7
      (fun _ => none) fc_ex_df (write_forecast (fun _ => none) fc_ex_df)
      (by decide) (by simp) rfl
  exact h.1 ⟨1, 5, 5, 5⟩ (by decide)

theorem series_sum_ex14 : series_sum ex14 = 14 := by
  simp only [series_sum, ex14, List.map_map]
  rw [show (Prod.snd ∘ fun i : Nat => ((i : Int), (1 : Rat))) = fun _ => (1 : Rat) from rfl]
  rw [List.map_const', List.sum_replicate]
  norm_num

/-- C7 counterexample: with 14 observed days of ones (sum nonzero) and
the SARIMAX library available, a fit exception is NOT caught by
`run_forecast` — it propagates to the caller as an error instead of
degrading to the constant-hold fallback (`train_sarimax_and_forecast`
has no try/except around `model.fit`). -/
theorem modelfit_counterexample :
    run_forecast true (Except.error ()) 0 ex14 7 (fun _ => none) = Except.error () := by
  have htrain : train_sarimax_and_forecast true (Except.error ()) 0 ex14 7
      = Except.error () := by
    unfold train_sarimax_and_forecast
    rw [if_neg]
    · rw [if_neg (by decide)]
    · rintro (hc | hc)
      · exact absurd hc (by decide)
      · rw [series_sum_ex14] at hc
        norm_num at hc
  unfold run_forecast
  rw [if_neg (by decide), htrain]

/-- C7 amended: fit errors are caught and downgraded to the
constant-hold fallback only in the backtest forecast step
(`_forecast_vector`); on `run_forecast`'s statistical path
(`train_sarimax_and_forecast`, reached with ≥ 14 observed days and a
nonzero series when SARIMAX is importable) a fit error is not caught
and propagates to `run_forecast`'s caller. -/
theorem modelfit_fallback_scope :
    (∀ (sarimaxAvail : Bool) (fit : Except Unit (List Rat)) (train : List Rat)
        (horizon : Nat), fit = Except.error () →
        forecast_vector sarimaxAvail fit train horizon
          = List.replicate horizon ((train.getLast?).getD 0))
    ∧ ∀ (today : Int) (s : List (Int × Rat)) (horizon : Nat) (st : FcStore),
        14 ≤ s.length → s ≠ [] → series_sum s ≠ 0 →
        run_forecast true (Except.error ()) today s horizon st = Except.error () := by
  constructor
  · intro sarimaxAvail fit train horizon hfit
    subst hfit
    unfold forecast_vector
    by_cases h : sarimaxAvail = false ∨ train.length < 14
    · rw [if_pos h]
    · rw [if_neg h]
  · intro today s horizon st hlen hne hsum
    have htrain : train_sarimax_and_forecast true (Except.error ()) today s horizon
        = Except.error () := by
      unfold train_sarimax_and_forecast
      rw [if_neg]
      · rw [if_neg (by decide)]
      · rintro (hc | hc)
        · exact hne hc
        · exact hsum hc
    unfold run_forecast
    rw [if_neg (by omega), htrain]

theorem modelfit_fallback_scope_witness :
    forecast_vector true (Except.error ()) [1] 3
        = List.replicate 3 ((([1] : List Rat).getLast?).getD 0)
    ∧ run_forecast true (Except.error ()) 0 ex14 7 (fun _ => none) = Except.error () := by
  refine ⟨modelfit_fallback_scope.1 true _ [1] 3 rfl,
    modelfit_fallback_scope.2 0 ex14 7 (fun _ => none) (by decide) (by decide) ?_⟩
  rw [series_sum_ex14]
  norm_num

theorem reliability_fold_stats_ex :
    reliability_fold_stats sqrtZero [1, 2, 4] 1 1
      = [⟨0, 2, 0, 200000000000/4000000001, 400000000000/6000000001, -2⟩] := by
  unfold reliability_fold_stats
  simp only [List.range_succ, List.range_zero, List.nil_append, List.filterMap_cons,
    List.filterMap_nil]
  norm_num [EPS9, sqrtZero, show Int.toNat 2 = 2 from rfl]
  rfl

theorem favg_singleton (f : FoldStat) (g : FoldStat → Rat) : favg [f] g = g f := by
  unfold favg
  rw [if_neg (by simp)]
  simp

theorem run_reliability_ex :
    run_reliability sqrtZero [1, 2, 4] 1 1
      = ⟨75, 200000000000/4000000001, 0, 400000000000/6000000001,
          [⟨0, 2, 0, 200000000000/4000000001, 400000000000/6000000001, -2⟩]⟩ := by
  have h0 : run_reliability sqrtZero [1, 2, 4] 1 1
      = reliability_assemble (reliability_fold_stats sqrtZero [1, 2, 4] 1 1) := rfl
  rw [h0, reliability_fold_stats_ex]
  unfold reliability_assemble
  rw [if_neg (by simp)]
  rw [favg_singleton, favg_singleton, favg_singleton]
  simp only [List.map_cons, List.map_nil, List.length_singleton]
  rw [if_neg (by norm_num)]
  simp only [ReliabilityRec.mk.injEq]
  refine ⟨?_, trivial, trivial, trivial, trivial⟩
  have hX : max (0:Rat) (min 100 (100 - (200000000000/4000000001 : Rat) / 2 - 0))
      = 300000000100/4000000001 := by
    rw [min_eq_right (by norm_num), max_eq_right (by norm_num)]
    norm_num
  rw [hX]
  have hfl : (⌊(300000000100/4000000001 : Rat)⌋ : Int) = 75 := by
    rw [Int.floor_eq_iff]
    constructor
    · push_cast
      norm_num
    · push_cast
      norm_num
  rw [hfl]
  decide

/-- C6 counterexample: for the series [1, 2, 4] with one fold and
horizon 1, the persisted composite score is the integer 75, while the
clamp formula of the claim evaluates to 300000000100/4000000001
(≈ 75.0000000006): `int(...)` truncation makes the stored score differ
from the claimed exact clamp value. -/
theorem reliability_score_counterexample :
    ((run_reliability sqrtZero [1, 2, 4] 1 1).score : Rat)
      ≠ spec_composite_score
          ((run_reliability sqrtZero [1, 2, 4] 1 1).folds.map (fun d => d.mape)) := by
  rw [run_reliability_ex]
  show ((75 : Int) : Rat) ≠ spec_composite_score [(200000000000/4000000001 : Rat)]
  have hs : spec_composite_score [(200000000000/4000000001 : Rat)]
      = 300000000100/4000000001 := by
    unfold spec_composite_score
    rw [if_neg (by simp)]
    simp only [List.length_singleton]
    rw [if_neg (by norm_num)]
    rw [min_eq_right (by norm_num), max_eq_right (by norm_num)]
    norm_num
  rw [hs]
  push_cast
  norm_num

theorem favg_map (fs : List FoldStat) (g : FoldStat → Rat) (hne : fs ≠ []) :
    favg fs g = (fs.map g).sum / (((fs.map g).length : Nat) : Rat) := by
  unfold favg
  rw [if_neg hne, List.length_map]

theorem reliability_assemble_folds (fs : List FoldStat) :
    (reliability_assemble fs).folds = fs := by
  unfold reliability_assemble
  by_cases h : fs = []
  · rw [if_pos h]
  · rw [if_neg h]

theorem reliability_assemble_floor (fs : List FoldStat) (hne : fs ≠ []) :
    (reliability_assemble fs).score = ⌊spec_composite_score (fs.map (fun d => d.mape))⌋
    ∧ 0 ≤ (reliability_assemble fs).score
    ∧ (reliability_assemble fs).score ≤ 100 := by
  have hspec : spec_composite_score (fs.map (fun d => d.mape))
      = max 0 (min 100 (100 - favg fs (fun d => d.mape) / 2 -
          (if 2 ≤ (fs.map (fun d => d.mape)).length
           then (list_max (fs.map (fun d => d.mape))
             - list_min (fs.map (fun d => d.mape))) / 10
           else 0))) := by
    unfold spec_composite_score
    rw [if_neg (by simpa using hne), ← favg_map fs _ hne]
  have hasm : reliability_assemble fs
      = ⟨max 0 (min 100
          (⌊max 0 (min 100 (100 - favg fs (fun d => d.mape) / 2 -
            (if 2 ≤ (fs.map (fun d => d.mape)).length
             then (list_max (fs.map (fun d => d.mape))
               - list_min (fs.map (fun d => d.mape))) / 10
             else 0)))⌋ : Int)),
        favg fs (fun d => d.mape), favg fs (fun d => d.rmse),
        favg fs (fun d => d.smape), fs⟩ := by
    unfold reliability_assemble
    rw [if_neg hne]
  rw [hasm, hspec]
  have h0X : (0:Rat) ≤ max 0 (min 100 (100 - favg fs (fun d => d.mape) / 2 -
      (if 2 ≤ (fs.map (fun d => d.mape)).length
       then (list_max (fs.map (fun d => d.mape))
         - list_min (fs.map (fun d => d.mape))) / 10
       else 0))) := le_max_left _ _
  have hX100 : max (0:Rat) (min 100 (100 - favg fs (fun d => d.mape) / 2 -
      (if 2 ≤ (fs.map (fun d => d.mape)).length
       then (list_max (fs.map (fun d => d.mape))
         - list_min (fs.map (fun d => d.mape))) / 10
       else 0))) ≤ 100 := max_le (by norm_num) (min_le_left _ _)
  have hfl0 : (0 : Int) ≤ ⌊max (0:Rat) (min 100 (100 - favg fs (fun d => d.mape) / 2 -
      (if 2 ≤ (fs.map (fun d => d.mape)).length
       then (list_max (fs.map (fun d => d.mape))
         - list_min (fs.map (fun d => d.mape))) / 10
       else 0)))⌋ := Int.le_floor.mpr (by exact_mod_cast h0X)
  have hfl100 : (⌊max (0:Rat) (min 100 (100 - favg fs (fun d => d.mape) / 2 -
      (if 2 ≤ (fs.map (fun d => d.mape)).length
       then (list_max (fs.map (fun d => d.mape))
         - list_min (fs.map (fun d => d.mape))) / 10
       else 0)))⌋ : Int) ≤ 100 := by
    have h1 := Int.floor_le (max (0:Rat) (min 100 (100 - favg fs (fun d => d.mape) / 2 -
      (if 2 ≤ (fs.map (fun d => d.mape)).length
       then (list_max (fs.map (fun d => d.mape))
         - list_min (fs.map (fun d => d.mape))) / 10
       else 0))))
    have h2 : (↑(⌊max (0:Rat) (min 100 (100 - favg fs (fun d => d.mape) / 2 -
      (if 2 ≤ (fs.map (fun d => d.mape)).length
       then (list_max (fs.map (fun d => d.mape))
         - list_min (fs.map (fun d => d.mape))) / 10
       else 0)))⌋) : Rat) ≤ 100 := le_trans h1 hX100
    exact_mod_cast h2
  refine ⟨?_, ?_, ?_⟩
  · show max 0 (min 100 _) = _
    rw [min_eq_right hfl100, max_eq_right hfl0]
  · exact le_max_left _ _
  · exact max_le (by norm_num) (min_le_left _ _)

/-- C6 amended: for every run of `run_reliability` with at least one
completed fold, the persisted composite score is the integer
TRUNCATION (floor, the clamped value being nonnegative) of
clamp(0, 100, 100 − mean_mape/2 − instability_penalty), with
instability_penalty = (max − min)/10 of the per-fold MAPE values when
at least 2 folds exist and 0 otherwise; consequently every snapshot has
0 ≤ score ≤ 100. -/
theorem reliability_score_floor (sqrtQ : Rat → Rat) (y : List Rat) (folds horizon : Int)
    (hfs : (run_reliability sqrtQ y folds horizon).folds ≠ []) :
    (run_reliability sqrtQ y folds horizon).score
        = ⌊spec_composite_score
            ((run_reliability sqrtQ y folds horizon).folds.map (fun d => d.mape))⌋
    ∧ 0 ≤ (run_reliability sqrtQ y folds horizon).score
    ∧ (run_reliability sqrtQ y folds horizon).score ≤ 100 := by
  have h0 : run_reliability sqrtQ y folds horizon
      = reliability_assemble (reliability_fold_stats sqrtQ y
          ((max 0 (min folds (((y.length - ((max 1 horizon).toNat + 1) : Nat)) : Int))).toNat)
          ((max 1 horizon).toNat)) := rfl
  rw [h0] at hfs ⊢
  rw [reliability_assemble_folds] at hfs ⊢
  exact reliability_assemble_floor _ hfs

theorem reliability_score_floor_witness :
    0 ≤ (run_reliability sqrtZero [1, 2, 4] 1 1).score
    ∧ (run_reliability sqrtZero [1, 2, 4] 1 1).score ≤ 100 :=
  (reliability_score_floor sqrtZero [1, 2, 4] 1 1 (by rw [run_reliability_ex]; simp)).2
